import Mathlib

/-!
Verification of the omni-packages validation-and-aggregation pipeline.

The two Python scripts `scripts/validate.py` and `scripts/generate-api.py`
are shallowly embedded below.  JSON documents are modelled by the `Json`
inductive type; Python dicts are ordered association lists (CPython dicts
preserve insertion order); Python runtime exceptions that the scripts do
not catch are modelled with `Except PyErr`.  Each embedded function keeps
the structure and the evaluation order of its Python source.
-/

set_option maxHeartbeats 1000000

namespace Omni

/-- JSON values as produced by Python's `json.load`: objects are ordered
association lists of string keys, numbers are modelled as rationals. -/
inductive Json where
  | null : Json
  | bool : Bool → Json
  | num : Rat → Json
  | str : String → Json
  | arr : List Json → Json
  | obj : List (String × Json) → Json

/-- Python exceptions that the scripts can raise and never catch. -/
inductive PyErr where
  | keyError : String → PyErr
  | typeError : String → PyErr
  | attributeError : String → PyErr

/-- Ordered association-list model of a Python dict with string keys. -/
abbrev PyDict (α : Type) := List (String × α)

/-- First value stored under key `k` (Python dict lookup; keys are unique
in dicts produced by `json.load`, and all dicts built below keep them
unique). -/
def dGet? {α : Type} (d : PyDict α) (k : String) : Option α :=
  match d with
  | [] => none
  | (k', v) :: rest => if k' = k then some v else dGet? rest k

/-- Python `k in d` for a dict. -/
def dContains {α : Type} (d : PyDict α) (k : String) : Bool :=
  match d with
  | [] => false
  | (k', _) :: rest => k' = k || dContains rest k

/-- Python `d.get(k, dflt)` for a dict. -/
def dGetD {α : Type} (d : PyDict α) (k : String) (dflt : α) : α :=
  (dGet? d k).getD dflt

/-- Python `d[k] = v`: replace the value in place if the key exists,
otherwise append the new binding at the end (CPython insertion order). -/
def dInsert {α : Type} (d : PyDict α) (k : String) (v : α) : PyDict α :=
  match d with
  | [] => [(k, v)]
  | (k', w) :: rest => if k' = k then (k', v) :: rest else (k', w) :: dInsert rest k v

/-- The idiom `if k not in d: d[k] = []` followed by `d[k].append(x)`,
used by both grouping loops of `generate-api.py`. -/
def dAppendAt {α : Type} (d : PyDict (List α)) (k : String) (x : α) : PyDict (List α) :=
  match d with
  | [] => [(k, [x])]
  | (k', v) :: rest => if k' = k then (k', v ++ [x]) :: rest else (k', v) :: dAppendAt rest k x

/-- Keys of the association list are pairwise distinct (true of every
dict a Python program can observe). -/
def dNodupB {α : Type} (d : PyDict α) : Bool :=
  match d with
  | [] => true
  | (k, _) :: rest => !(dContains rest k) && dNodupB rest

/-- Sum of the lengths of all the value lists of a dict of lists. -/
def dSumLens {α : Type} (d : PyDict (List α)) : Nat :=
  (d.map (fun kv => kv.2.length)).sum

/-- Boolean list-prefix test on characters. -/
def chPrefix (needle hay : List Char) : Bool :=
  match needle, hay with
  | [], _ => true
  | _ :: _, [] => false
  | c :: cs, d :: ds => c = d && chPrefix cs ds

/-- Boolean substring test on characters (Python `needle in hay` for
strings). -/
def chInfix (needle hay : List Char) : Bool :=
  match hay with
  | [] => needle.isEmpty
  | _ :: rest => chPrefix needle hay || chInfix needle rest

/-- Python `key in value` (membership test); raises `TypeError` on
non-container values.  The needle is always a string literal in these
scripts, so array membership only has to compare against strings. -/
def pyIn (k : String) (v : Json) : Except PyErr Bool :=
  match v with
  | .obj fs => .ok (dContains fs k)
  | .arr xs => .ok (xs.any (fun j => match j with | .str s => s = k | _ => false))
  | .str s => .ok (chInfix k.data s.data)
  | _ => .error (.typeError "argument is not iterable")

/-- Python `value[k]` with a string subscript: dict lookup raising
`KeyError` when absent, `TypeError` on anything that is not a dict. -/
def pySubscr (v : Json) (k : String) : Except PyErr Json :=
  match v with
  | .obj fs =>
    match dGet? fs k with
    | some w => .ok w
    | none => .error (.keyError k)
  | _ => .error (.typeError "value is not subscriptable by a string")

/-- Python `value.get(k, dflt)`; only dicts have `.get`. -/
def pyGet (v : Json) (k : String) (dflt : Json) : Except PyErr Json :=
  match v with
  | .obj fs => .ok (dGetD fs k dflt)
  | _ => .error (.attributeError "get")

/-- Python `value.items()`; only dicts have `.items`. -/
def pyItems (v : Json) : Except PyErr (List (String × Json)) :=
  match v with
  | .obj fs => .ok fs
  | _ => .error (.attributeError "items")

/-- Python `len(value)`; strings, lists and dicts have a length, other
JSON values raise `TypeError`. -/
def pyLen (v : Json) : Except PyErr Nat :=
  match v with
  | .str s => .ok s.length
  | .arr xs => .ok xs.length
  | .obj fs => .ok fs.length
  | _ => .error (.typeError "object has no len")

/-- Python truthiness of a JSON value (`bool(value)`). -/
def pyTruthy (v : Json) : Bool :=
  match v with
  | .null => false
  | .bool b => b
  | .num q => !(q = 0)
  | .str s => !(s = "")
  | .arr xs => !xs.isEmpty
  | .obj fs => !fs.isEmpty

/-- Numeric value used by Python comparisons (`<`, `>=`) and sort keys;
booleans compare as 0/1, any other non-number raises `TypeError`.
(Python would also compare two strings; the scripts only ever compare
ranks and scores, which the data model declares numeric.) -/
def pyNumVal (v : Json) : Except PyErr Rat :=
  match v with
  | .num q => .ok q
  | .bool b => .ok (if b then 1 else 0)
  | _ => .error (.typeError "unsupported comparison")

/-- A JSON value used as a Python dict key.  The scripts only ever store
under keys that are strings in well-formed package data; other hashable
values are not modelled and are mapped to `TypeError` (lists and dicts
genuinely raise `TypeError: unhashable`). -/
def asKey (v : Json) : Except PyErr String :=
  match v with
  | .str s => .ok s
  | _ => .error (.typeError "only string dict keys are modelled")

/-- Python iteration over a JSON value; the scripts iterate manager
package-name lists and vulnerability lists, which the data model declares
to be arrays, so only arrays are modelled (non-iterables genuinely raise
`TypeError`). -/
def asIterList (v : Json) : Except PyErr (List Json) :=
  match v with
  | .arr xs => .ok xs
  | _ => .error (.typeError "only array iteration is modelled")

/-- Python `str(value)` as used by the f-string building the expected
filename.  Faithful for strings and integers (the only values a
well-formed `name` field can hold); other values get a best-effort
rendering that no theorem below depends on. -/
def pyStr (v : Json) : String :=
  match v with
  | .str s => s
  | .num q => if q.den = 1 then toString q.num else toString q
  | .bool true => "True"
  | .bool false => "False"
  | .null => "None"
  | .arr _ => "[...]"
  | .obj _ => "\x7b...\x7d"

/-! ### The validator (`scripts/validate.py`)

`PACKAGE_SCHEMA` is transcribed as a checking function.  `schemaViolations`
enumerates every violation the schema has against a document, in a fixed
deterministic order (required properties in declaration order, then each
declared property in declaration order).  The `jsonschema` library's
`validate` raises a single `ValidationError`; it is modelled as the head
of this enumeration. -/

/-- Check of a subschema `{"type": "string"}` at the named location. -/
def checkStringAt (label : String) (v : Json) : List String :=
  match v with
  | .str _ => []
  | _ => [label ++ " is not of type string"]

/-- Check of `{"type": "array", "items": {"type": "string"}}`: one
violation per non-string element, as `jsonschema` iterates items. -/
def checkArrayOfStringsAt (label : String) (v : Json) : List String :=
  match v with
  | .arr xs =>
    (xs.filter (fun x => match x with | .str _ => false | _ => true)).map
      (fun _ => label ++ " item is not of type string")
  | _ => [label ++ " is not of type array"]

/-- Check of `{"type": "integer", "minimum": lo}`; the `minimum` keyword
only applies to numeric instances. -/
def checkIntMinAt (label : String) (lo : Int) (v : Json) : List String :=
  (match v with
   | .num q => if q.den = 1 then [] else [label ++ " is not of type integer"]
   | _ => [label ++ " is not of type integer"]) ++
  (match v with
   | .num q => if q < (lo : Rat) then [label ++ " is less than the minimum"] else []
   | _ => [])

/-- Check of `{"type": "integer", "minimum": lo, "maximum": hi}`. -/
def checkIntRangeAt (label : String) (lo hi : Int) (v : Json) : List String :=
  (match v with
   | .num q => if q.den = 1 then [] else [label ++ " is not of type integer"]
   | _ => [label ++ " is not of type integer"]) ++
  (match v with
   | .num q =>
     (if q < (lo : Rat) then [label ++ " is less than the minimum"] else []) ++
     (if (hi : Rat) < q then [label ++ " is greater than the maximum"] else [])
   | _ => [])

/-- Check of `{"type": "number", "minimum": lo, "maximum": hi}` (the
`security.score` subschema). -/
def checkNumRangeAt (label : String) (lo hi : Int) (v : Json) : List String :=
  match v with
  | .num q =>
    (if q < (lo : Rat) then [label ++ " is less than the minimum"] else []) ++
    (if (hi : Rat) < q then [label ++ " is greater than the maximum"] else [])
  | _ => [label ++ " is not of type number"]

/-- Check of `{"type": "array"}` with unconstrained items. -/
def checkArrayAt (label : String) (v : Json) : List String :=
  match v with
  | .arr _ => []
  | _ => [label ++ " is not of type array"]

/-- Apply a subschema check to a property only when it is present
(`properties` places no requirement on absent keys). -/
def optCheck (fs : PyDict Json) (k : String) (chk : Json → List String) : List String :=
  match dGet? fs k with
  | some v => chk v
  | none => []

/-- Check of the `name` subschema: a string matching `^[a-z0-9-_]+$`;
the `pattern` keyword only applies to string instances. -/
def checkNameAt (v : Json) : List String :=
  match v with
  | .str s =>
    if 0 < s.length && s.data.all (fun c =>
        ('a' ≤ c && c ≤ 'z') || ('0' ≤ c && c ≤ '9') || c = '-' || c = '_') then []
    else ["name does not match the required pattern"]
  | _ => ["name is not of type string"]

/-- Check of one per-platform subschema of `cross_platform`: an object
whose declared manager properties are arrays of strings. -/
def checkPlatformObjAt (label : String) (managerKeys : List String) (v : Json) : List String :=
  match v with
  | .obj fs =>
    managerKeys.foldr
      (fun k acc => optCheck fs k (checkArrayOfStringsAt (label ++ "." ++ k)) ++ acc) []
  | _ => [label ++ " is not of type object"]

/-- Check of the `cross_platform` subschema. -/
def checkCrossPlatformAt (v : Json) : List String :=
  match v with
  | .obj fs =>
    optCheck fs "linux"
      (checkPlatformObjAt "cross_platform.linux"
        ["apt", "snap", "flatpak", "dnf", "pacman", "zypper"]) ++
    optCheck fs "macos" (checkPlatformObjAt "cross_platform.macos" ["brew"]) ++
    optCheck fs "windows"
      (checkPlatformObjAt "cross_platform.windows" ["winget", "chocolatey", "scoop"])
  | _ => ["cross_platform is not of type object"]

/-- Check of the `popularity` subschema. -/
def checkPopularityAt (v : Json) : List String :=
  match v with
  | .obj fs =>
    optCheck fs "rank" (checkIntMinAt "popularity.rank" 1) ++
    optCheck fs "downloads_per_month" (checkIntMinAt "popularity.downloads_per_month" 0) ++
    optCheck fs "github_stars" (checkIntMinAt "popularity.github_stars" 0) ++
    optCheck fs "search_frequency" (checkIntRangeAt "popularity.search_frequency" 0 100)
  | _ => ["popularity is not of type object"]

/-- Check of the `security` subschema (the `format` keywords of
`last_audit` are annotations that `jsonschema.validate` does not check
without an explicit format checker). -/
def checkSecurityAt (v : Json) : List String :=
  match v with
  | .obj fs =>
    optCheck fs "score" (checkNumRangeAt "security.score" 0 10) ++
    optCheck fs "last_audit" (checkStringAt "security.last_audit") ++
    optCheck fs "vulnerabilities" (checkArrayAt "security.vulnerabilities") ++
    optCheck fs "cve_count" (checkIntMinAt "security.cve_count" 0) ++
    optCheck fs "security_features" (checkArrayOfStringsAt "security.security_features")
  | _ => ["security is not of type object"]

/-- Check of one item of the `alternatives` array. -/
def checkAlternativeItem (v : Json) : List String :=
  match v with
  | .obj fs =>
    (if dContains fs "name" then [] else ["alternatives item: name is a required property"]) ++
    (if dContains fs "reason" then [] else ["alternatives item: reason is a required property"]) ++
    optCheck fs "name" (checkStringAt "alternatives.name") ++
    optCheck fs "reason" (checkStringAt "alternatives.reason")
  | _ => ["alternatives item is not of type object"]

/-- Check of the `alternatives` subschema. -/
def checkAlternativesAt (v : Json) : List String :=
  match v with
  | .arr xs => xs.foldr (fun x acc => checkAlternativeItem x ++ acc) []
  | _ => ["alternatives is not of type array"]

/-- The required properties of `PACKAGE_SCHEMA`, in declaration order. -/
def requiredProps : List String :=
  ["name", "display_name", "category", "description", "cross_platform"]

/-- Every violation of `PACKAGE_SCHEMA` against a document, in a fixed
deterministic order.  (Message texts are normalized paraphrases of the
library's messages; no theorem depends on their exact wording, only on
the count and on the `Schema validation error: ` prefix added below.) -/
def schemaViolations (d : Json) : List String :=
  match d with
  | .obj fs =>
    (requiredProps.filter (fun k => !(dContains fs k))).map
      (fun k => k ++ " is a required property") ++
    optCheck fs "name" checkNameAt ++
    optCheck fs "display_name" (checkStringAt "display_name") ++
    optCheck fs "category" (checkStringAt "category") ++
    optCheck fs "description" (checkStringAt "description") ++
    optCheck fs "homepage" (checkStringAt "homepage") ++
    optCheck fs "license" (checkStringAt "license") ++
    optCheck fs "cross_platform" checkCrossPlatformAt ++
    optCheck fs "popularity" checkPopularityAt ++
    optCheck fs "security" checkSecurityAt ++
    optCheck fs "similar_packages" (checkArrayOfStringsAt "similar_packages") ++
    optCheck fs "alternatives" checkAlternativesAt ++
    optCheck fs "tags" (checkArrayOfStringsAt "tags") ++
    optCheck fs "updated_at" (checkStringAt "updated_at")
  | _ => ["document is not of type object"]

/-- Model of `jsonschema.validate(data, PACKAGE_SCHEMA)`: the library
raises at most ONE `ValidationError` (the best match of the violations it
iterates), modelled as the head of the enumeration. -/
def jsonschemaFirstError (d : Json) : Option String :=
  (schemaViolations d).head?

/-- What `validate_package` receives for one discovered file: the file
either failed to open, failed to parse as JSON, or parsed to a document.
The two failure branches carry the exception text that the script
interpolates into its error string. -/
inductive FileInput where
  | readError : String → FileInput
  | parseError : String → FileInput
  | parsed : Json → FileInput

/-- Sum of `len(managers)` over the items of `cross_platform`, exactly as
the `for platform, managers in platforms.items()` loop accumulates it;
`len` of a non-sized value raises `TypeError` out of the loop. -/
def sumManagerLens (items : List (String × Json)) : Except PyErr Nat :=
  match items with
  | [] => .ok 0
  | (_, m) :: rest =>
    match pyLen m with
    | .error e => .error e
    | .ok n =>
      match sumManagerLens rest with
      | .error e => .error e
      | .ok t => .ok (n + t)

/-- `validate_package` of `scripts/validate.py`: returns the per-file
error list, or the uncaught Python exception when validation itself
crashes (only the open/parse step is inside a `try`). -/
def validate_package (fileName : String) (input : FileInput) : Except PyErr (List String) :=
  match input with
  | .readError msg => .ok ["Error reading file: " ++ msg]
  | .parseError msg => .ok ["Invalid JSON: " ++ msg]
  | .parsed data =>
    let errors :=
      match jsonschemaFirstError data with
      | some m => ["Schema validation error: " ++ m]
      | none => []
    match pyIn "name" data with
    | .error e => .error e
    | .ok hasName =>
      match
        ((if hasName then
          match pySubscr data "name" with
          | .error e => .error e
          | .ok nv =>
            .ok (if fileName = pyStr nv ++ ".json" then errors
              else errors ++
                ["Filename " ++ fileName ++ " does not match package name " ++ pyStr nv])
        else .ok errors) : Except PyErr (List String)) with
      | .error e => .error e
      | .ok errors2 =>
        match pyIn "cross_platform" data with
        | .error e => .error e
        | .ok hasCp =>
          if hasCp then
            match pySubscr data "cross_platform" with
            | .error e => .error e
            | .ok platforms =>
              match pyItems platforms with
              | .error e => .error e
              | .ok items =>
                match sumManagerLens items with
                | .error e => .error e
                | .ok total =>
                  .ok (if total < 2 then
                    errors2 ++ ["Package should support at least 2 package managers"]
                  else errors2)
          else .ok errors2

/-- The accumulation loop of `validate_all_packages`: counts files and
sums the per-file error-list lengths; a file whose validation raises
aborts the whole loop. -/
def validateLoop (files : List (String × FileInput)) (totalFiles totalErrors : Nat) :
    Except PyErr (Nat × Nat) :=
  match files with
  | [] => .ok (totalFiles, totalErrors)
  | (fn, c) :: rest =>
    match validate_package fn c with
    | .error e => .error e
    | .ok errs => validateLoop rest (totalFiles + 1) (totalErrors + errs.length)

/-- `validate_all_packages`: true iff zero errors were accumulated. -/
def validate_all_packages (files : List (String × FileInput)) : Except PyErr Bool :=
  match validateLoop files 0 0 with
  | .error e => .error e
  | .ok r => .ok (r.2 = 0)

/-- The `main` of `scripts/validate.py`: `sys.exit(0)` on success,
`sys.exit(1)` otherwise. -/
def validatorMain (files : List (String × FileInput)) : Except PyErr Nat :=
  match validate_all_packages files with
  | .error e => .error e
  | .ok ok => .ok (if ok then 0 else 1)

/-! ### The aggregator (`scripts/generate-api.py`)

Each generator is embedded as a core computation over the loaded record
list followed by construction of the output document; the current UTC
timestamp captured by `datetime.now(timezone.utc).isoformat()` is an
explicit `now` parameter, used only in the `last_updated` field. -/

/-- One summary object of the `popular_packages` list; field names and
order follow the `pkg_info` dict literal of `generate_popular_packages`. -/
structure PkgInfo where
  rank : Json
  name : Json
  display_name : Json
  category : Json
  downloads_per_month : Json
  search_frequency : Json
  cross_platform : Bool

/-- The `popular.json` document. -/
structure PopularDoc where
  version : String
  last_updated : String
  total_packages : Nat
  popular_packages : List PkgInfo
  categories : PyDict (List Json)

/-- The filter predicate of the list comprehension
`[p for p in packages if 'popularity' in p and 'rank' in p['popularity']]`
for one record (Python `and` short-circuits). -/
def popKeep (p : Json) : Except PyErr Bool :=
  match pyIn "popularity" p with
  | .error e => .error e
  | .ok false => .ok false
  | .ok true =>
    match pySubscr p "popularity" with
    | .error e => .error e
    | .ok pop => pyIn "rank" pop

/-- The list comprehension itself, evaluated element by element in input
order. -/
def popFilter (packages : List Json) : Except PyErr (List Json) :=
  match packages with
  | [] => .ok []
  | p :: rest =>
    match popKeep p with
    | .error e => .error e
    | .ok b =>
      match popFilter rest with
      | .error e => .error e
      | .ok tail => .ok (if b then p :: tail else tail)

/-- The sort key `lambda x: x['popularity']['rank']` of one record. -/
def rankKeyM (p : Json) : Except PyErr Rat :=
  match pySubscr p "popularity" with
  | .error e => .error e
  | .ok pop =>
    match pySubscr pop "rank" with
    | .error e => .error e
    | .ok r => pyNumVal r

/-- Key extraction for `sorted(..., key=...)`: CPython computes the key
of every element, in list order, before comparing. -/
def rankPairs (l : List Json) : Except PyErr (List (Rat × Json)) :=
  match l with
  | [] => .ok []
  | p :: rest =>
    match rankKeyM p with
    | .error e => .error e
    | .ok k =>
      match rankPairs rest with
      | .error e => .error e
      | .ok t => .ok ((k, p) :: t)

/-- Insert a keyed record in front of the first element with a key not
smaller than it.  Together with `sortByRank` this is extensionally
Python's stable `sorted` by the rank key: a sorted permutation in which
equal keys keep their input order is unique. -/
def ordInsert (a : Rat × Json) (l : List (Rat × Json)) : List (Rat × Json) :=
  match l with
  | [] => [a]
  | b :: rest => if a.1 ≤ b.1 then a :: b :: rest else b :: ordInsert a rest

/-- Stable sort of the keyed records (model of Python `sorted`). -/
def sortByRank (l : List (Rat × Json)) : List (Rat × Json) :=
  match l with
  | [] => []
  | a :: rest => ordInsert a (sortByRank rest)

/-- The body of `for pkg in popular:` of `generate_popular_packages`:
builds the summary list and the by-category name lists, in sorted order;
accesses without `.get` raise `KeyError` when the field is missing. -/
def popularLoop (l : List Json) (acc : List PkgInfo) (cats : PyDict (List Json)) :
    Except PyErr (List PkgInfo × PyDict (List Json)) :=
  match l with
  | [] => .ok (acc, cats)
  | pkg :: rest =>
    match pySubscr pkg "popularity" with
    | .error e => .error e
    | .ok pop_data =>
      match pySubscr pop_data "rank" with
      | .error e => .error e
      | .ok rank =>
        match pySubscr pkg "name" with
        | .error e => .error e
        | .ok name =>
          match pySubscr pkg "display_name" with
          | .error e => .error e
          | .ok dn =>
            match pySubscr pkg "category" with
            | .error e => .error e
            | .ok cat =>
              match pyGet pop_data "downloads_per_month" (.num 0) with
              | .error e => .error e
              | .ok dpm =>
                match pyGet pop_data "search_frequency" (.num 0) with
                | .error e => .error e
                | .ok sf =>
                  match pyGet pkg "cross_platform" .null with
                  | .error e => .error e
                  | .ok cp =>
                    match asKey cat with
                    | .error e => .error e
                    | .ok catKey =>
                      popularLoop rest
                        (acc ++ [⟨rank, name, dn, cat, dpm, sf, pyTruthy cp⟩])
                        (dAppendAt cats catKey name)

/-- Everything `generate_popular_packages` computes before it reads the
clock: filter, stable sort by rank, then the construction loop. -/
def popularCore (packages : List Json) :
    Except PyErr (List PkgInfo × PyDict (List Json)) :=
  match popFilter packages with
  | .error e => .error e
  | .ok kept =>
    match rankPairs kept with
    | .error e => .error e
    | .ok keyed => popularLoop ((sortByRank keyed).map Prod.snd) [] []

/-- `generate_popular_packages` of `scripts/generate-api.py`. -/
def generate_popular_packages (now : String) (packages : List Json) :
    Except PyErr PopularDoc :=
  match popularCore packages with
  | .error e => .error e
  | .ok r => .ok ⟨"1.0", now, r.1.length, r.1, r.2⟩

/-- The nested reverse-mapping structure
`platform → manager → package name → owning package's name`. -/
abbrev RevMap := PyDict (PyDict (PyDict Json))

/-- The `cross-platform.json` document. -/
structure CrossDoc where
  version : String
  last_updated : String
  mappings : PyDict Json
  reverse_mappings : RevMap

/-- The loop `for package_name in package_names:` writing
`reverse_mappings[platform][manager][package_name] = name`. -/
def revAddNames (name : Json) (md : PyDict Json) (pnames : List Json) :
    Except PyErr (PyDict Json) :=
  match pnames with
  | [] => .ok md
  | n :: rest =>
    match asKey n with
    | .error e => .error e
    | .ok k => revAddNames name (dInsert md k name) rest

/-- The loop `for manager, package_names in managers.items():` over one
platform's dict (the value of `reverse_mappings[platform]`). -/
def revAddMgrs (name : Json) (pd : PyDict (PyDict Json)) (mitems : List (String × Json)) :
    Except PyErr (PyDict (PyDict Json)) :=
  match mitems with
  | [] => .ok pd
  | (mgr, pnames) :: rest =>
    let pd1 := if dContains pd mgr then pd else dInsert pd mgr []
    match asIterList pnames with
    | .error e => .error e
    | .ok ns =>
      match revAddNames name (dGetD pd1 mgr []) ns with
      | .error e => .error e
      | .ok md => revAddMgrs name (dInsert pd1 mgr md) rest

/-- The loop `for platform, managers in cross_platform.items():`. -/
def revAddPlats (name : Json) (r : RevMap) (items : List (String × Json)) :
    Except PyErr RevMap :=
  match items with
  | [] => .ok r
  | (pl, managers) :: rest =>
    let r1 := if dContains r pl then r else dInsert r pl []
    match pyItems managers with
    | .error e => .error e
    | .ok mitems =>
      match revAddMgrs name (dGetD r1 pl []) mitems with
      | .error e => .error e
      | .ok pd => revAddPlats name (dInsert r1 pl pd) rest

/-- The `for pkg in packages:` loop of `generate_cross_platform_mappings`;
records without `cross_platform` are skipped with `continue`. -/
def crossLoop (packages : List Json) (m : PyDict Json) (r : RevMap) :
    Except PyErr (PyDict Json × RevMap) :=
  match packages with
  | [] => .ok (m, r)
  | pkg :: rest =>
    match pyIn "cross_platform" pkg with
    | .error e => .error e
    | .ok false => crossLoop rest m r
    | .ok true =>
      match pySubscr pkg "name" with
      | .error e => .error e
      | .ok name =>
        match pySubscr pkg "cross_platform" with
        | .error e => .error e
        | .ok cp =>
          match asKey name with
          | .error e => .error e
          | .ok nk =>
            match pyItems cp with
            | .error e => .error e
            | .ok items =>
              match revAddPlats name r items with
              | .error e => .error e
              | .ok r2 => crossLoop rest (dInsert m nk cp) r2

/-- Everything `generate_cross_platform_mappings` computes before the
clock; `reverse_mappings` starts with the three fixed platform keys. -/
def crossCore (packages : List Json) : Except PyErr (PyDict Json × RevMap) :=
  crossLoop packages [] [("linux", []), ("macos", []), ("windows", [])]

/-- `generate_cross_platform_mappings` of `scripts/generate-api.py`. -/
def generate_cross_platform_mappings (now : String) (packages : List Json) :
    Except PyErr CrossDoc :=
  match crossCore packages with
  | .error e => .error e
  | .ok r => .ok ⟨"1.0", now, r.1, r.2⟩

/-- The fixed-key `security_categories` dict (its four keys never change,
so it is modelled as a structure). -/
structure SecCats where
  excellent : List Json
  good : List Json
  fair : List Json
  poor : List Json

/-- The fixed `security_guidelines` object. -/
structure SecurityGuidelines where
  minimum_score : Rat
  recommended_score : Rat
  update_frequency : String

/-- The `security.json` document. -/
structure SecurityDoc where
  version : String
  last_updated : String
  security_scores : PyDict Json
  security_categories : SecCats
  vulnerability_alerts : List Json
  security_guidelines : SecurityGuidelines

/-- The `for pkg in packages:` loop of `generate_security_data`:
verbatim score map, bucket membership by the `if/elif` chain (first
match wins), and concatenation of the non-empty vulnerability lists.
The `and len(...) > 0` conjunct of the source is subsumed for sized
values because a truthy sequence is non-empty. -/
def secLoop (packages : List Json) (ss : PyDict Json) (sc : SecCats) (va : List Json) :
    Except PyErr (PyDict Json × SecCats × List Json) :=
  match packages with
  | [] => .ok (ss, sc, va)
  | pkg :: rest =>
    match pyIn "security" pkg with
    | .error e => .error e
    | .ok false => secLoop rest ss sc va
    | .ok true =>
      match pySubscr pkg "name" with
      | .error e => .error e
      | .ok name =>
        match pySubscr pkg "security" with
        | .error e => .error e
        | .ok security =>
          match asKey name with
          | .error e => .error e
          | .ok nk =>
            match pyGet security "score" (.num 0) with
            | .error e => .error e
            | .ok scoreJ =>
              match pyNumVal scoreJ with
              | .error e => .error e
              | .ok score =>
                let sc1 :=
                  if 9 ≤ score then { sc with excellent := sc.excellent ++ [name] }
                  else if 8 ≤ score then { sc with good := sc.good ++ [name] }
                  else if 6 ≤ score then { sc with fair := sc.fair ++ [name] }
                  else { sc with poor := sc.poor ++ [name] }
                match pyGet security "vulnerabilities" .null with
                | .error e => .error e
                | .ok vulnsJ =>
                  if pyTruthy vulnsJ then
                    match asIterList vulnsJ with
                    | .error e => .error e
                    | .ok vl => secLoop rest (dInsert ss nk security) sc1 (va ++ vl)
                  else secLoop rest (dInsert ss nk security) sc1 va

/-- Everything `generate_security_data` computes before the clock. -/
def securityCore (packages : List Json) :
    Except PyErr (PyDict Json × SecCats × List Json) :=
  secLoop packages [] ⟨[], [], [], []⟩ []

/-- `generate_security_data` of `scripts/generate-api.py`. -/
def generate_security_data (now : String) (packages : List Json) :
    Except PyErr SecurityDoc :=
  match securityCore packages with
  | .error e => .error e
  | .ok r => .ok ⟨"1.0", now, r.1, r.2.1, r.2.2, ⟨7, 8.5, "daily"⟩⟩

/-- One `{name, display_name, description}` summary of the categories
view. -/
structure CatEntry where
  name : Json
  display_name : Json
  description : Json

/-- The `categories.json` document. -/
structure CategoriesDoc where
  version : String
  last_updated : String
  categories : PyDict (List CatEntry)
  total_categories : Nat
  total_packages : Nat

/-- The `for pkg in packages:` loop of `generate_categories`; `category`
defaults to "other" via `.get`, the three summary fields are accessed
without a default and raise `KeyError` when missing. -/
def catLoop (packages : List Json) (cats : PyDict (List CatEntry)) :
    Except PyErr (PyDict (List CatEntry)) :=
  match packages with
  | [] => .ok cats
  | pkg :: rest =>
    match pyGet pkg "category" (.str "other") with
    | .error e => .error e
    | .ok cat =>
      match asKey cat with
      | .error e => .error e
      | .ok ck =>
        match pySubscr pkg "name" with
        | .error e => .error e
        | .ok n =>
          match pySubscr pkg "display_name" with
          | .error e => .error e
          | .ok dn =>
            match pySubscr pkg "description" with
            | .error e => .error e
            | .ok ds => catLoop rest (dAppendAt cats ck ⟨n, dn, ds⟩)

/-- `generate_categories` of `scripts/generate-api.py`:
`total_categories` is `len(categories)` and `total_packages` is
`len(packages)`. -/
def generate_categories (now : String) (packages : List Json) :
    Except PyErr CategoriesDoc :=
  match catLoop packages [] with
  | .error e => .error e
  | .ok cats => .ok ⟨"1.0", now, cats, cats.length, packages.length⟩

/-- The `all.json` document. -/
structure AllDoc where
  version : String
  last_updated : String
  total_packages : Nat
  packages : List Json

/-- `generate_all_packages` of `scripts/generate-api.py` (cannot fail). -/
def generate_all_packages (now : String) (packages : List Json) : AllDoc :=
  ⟨"1.0", now, packages.length, packages⟩

/-- The five documents built by `main` of `scripts/generate-api.py`. -/
structure Endpoints where
  popular : PopularDoc
  cross : CrossDoc
  security : SecurityDoc
  cats : CategoriesDoc
  all : AllDoc

/-- The `endpoints` dict literal of `main`: the five generators run in
order on the same loaded record list; an exception in one aborts the
whole run before any file is written. -/
def generateEndpoints (now : String) (packages : List Json) : Except PyErr Endpoints :=
  match generate_popular_packages now packages with
  | .error e => .error e
  | .ok d1 =>
    match generate_cross_platform_mappings now packages with
    | .error e => .error e
    | .ok d2 =>
      match generate_security_data now packages with
      | .error e => .error e
      | .ok d3 =>
        match generate_categories now packages with
        | .error e => .error e
        | .ok d4 => .ok ⟨d1, d2, d3, d4, generate_all_packages now packages⟩

/-- Erase the only timestamp-dependent field of each document. -/
def stripEndpointsTime (e : Endpoints) : Endpoints :=
  ⟨{ e.popular with last_updated := "" },
   { e.cross with last_updated := "" },
   { e.security with last_updated := "" },
   { e.cats with last_updated := "" },
   { e.all with last_updated := "" }⟩

/-! ### Pure mirrors and well-formedness predicates

The theorems below characterize the embedded generators against pure
(total, non-monadic) descriptions of the same computation, under
well-formedness hypotheses that say the records have the shapes §3 of
the data model declares (objects, numeric ranks and scores, string
names and categories, arrays of strings under the managers).  Outside
those shapes the scripts raise uncaught exceptions, which is exactly
what claims C3 and C9 are about. -/

/-- A value Python's `len` accepts. -/
def lenable (v : Json) : Bool :=
  match v with
  | .str _ => true
  | .arr _ => true
  | .obj _ => true
  | _ => false

/-- Length of a sized JSON value (matches `pyLen` on `lenable` values). -/
def jLen (v : Json) : Nat :=
  match v with
  | .str s => s.length
  | .arr xs => xs.length
  | .obj fs => fs.length
  | _ => 0

/-- The total manager-entry count of a `cross_platform` object: the sum
of `len(managers)` over its platform bindings. -/
def platformManagerTotal (ps : List (String × Json)) : Nat :=
  (ps.map (fun kv => jLen kv.2)).sum

/-- A parsed document the validator can process without raising: an
object whose `cross_platform` value, when present, is an object all of
whose platform values are sized (the package schema makes them objects). -/
def docOK (d : Json) : Bool :=
  match d with
  | .obj fs =>
    match dGet? fs "cross_platform" with
    | none => true
    | some (.obj ps) => ps.all (fun kv => lenable kv.2)
    | some _ => false
  | _ => false

/-- A discovered file the validator can process without raising. -/
def fileOK (input : FileInput) : Bool :=
  match input with
  | .readError _ => true
  | .parseError _ => true
  | .parsed d => docOK d

/-- Does the error string report a schema violation?  Every schema error
the validator emits carries this fixed prefix and no other error kind
does. -/
def isSchemaErr (s : String) : Bool :=
  chPrefix "Schema validation error: ".data s.data

/-- Mirror of the popular-view filter: the record has `popularity` and
`popularity.rank` (on records whose `popularity` is an object, this is
what the comprehension's predicate computes). -/
def keepsPop (p : Json) : Bool :=
  match p with
  | .obj fs =>
    match dGet? fs "popularity" with
    | some (.obj pfs) => dContains pfs "rank"
    | _ => false
  | _ => false

/-- The numeric rank of a record (0 outside the well-formed shapes, where
it is never used). -/
def rankVal (p : Json) : Rat :=
  match p with
  | .obj fs =>
    match dGet? fs "popularity" with
    | some (.obj pfs) =>
      match dGet? pfs "rank" with
      | some (.num q) => q
      | _ => 0
    | _ => 0
  | _ => 0

/-- Pure mirror of one `pkg_info` summary. -/
def mkInfo (p : Json) : PkgInfo :=
  match p with
  | .obj fs =>
    let pfs := match dGet? fs "popularity" with
      | some (.obj pfs) => pfs
      | _ => []
    ⟨(dGet? pfs "rank").getD .null,
     (dGet? fs "name").getD .null,
     (dGet? fs "display_name").getD .null,
     (dGet? fs "category").getD .null,
     (dGet? pfs "downloads_per_month").getD (.num 0),
     (dGet? pfs "search_frequency").getD (.num 0),
     pyTruthy ((dGet? fs "cross_platform").getD .null)⟩
  | _ => ⟨.null, .null, .null, .null, .num 0, .num 0, false⟩

/-- The kept records of the popular view paired with their rank keys, in
input order. -/
def keyedPop (packages : List Json) : List (Rat × Json) :=
  (packages.filter keepsPop).map (fun p => (rankVal p, p))

/-- The stable-sorted keyed records of the popular view. -/
def sortKeyed (packages : List Json) : List (Rat × Json) :=
  sortByRank (keyedPop packages)

/-- Presence of the three fields the popular-view loop dereferences
without a default. -/
def hasNDC (p : Json) : Bool :=
  match p with
  | .obj fs => dContains fs "name" && dContains fs "display_name" && dContains fs "category"
  | _ => false

/-- Structural well-formedness of a record for the popular view, without
requiring the dereferenced fields: an object whose `popularity`, when
present, is an object whose `rank`, when present, is a number, and whose
`category`, when present, is a string. -/
def wfPopBase (p : Json) : Bool :=
  match p with
  | .obj fs =>
    (match dGet? fs "popularity" with
     | none => true
     | some (.obj pfs) =>
       (match dGet? pfs "rank" with
        | none => true
        | some (.num _) => true
        | some _ => false)
     | some _ => false) &&
    (match dGet? fs "category" with
     | none => true
     | some (.str _) => true
     | some _ => false)
  | _ => false

/-- Full well-formedness for the popular view: base shape, and every
kept record carries the three dereferenced fields. -/
def wfPopular (p : Json) : Bool :=
  wfPopBase p && (!keepsPop p || hasNDC p)

/-- Is the JSON value the given string? -/
def strEqB (pn : String) (n : Json) : Bool :=
  match n with
  | .str s => s = pn
  | _ => false

/-- Does the record list `pn` as a manager-specific name under the given
platform and manager of its `cross_platform`? -/
def claimsName (pl mgr pn : String) (p : Json) : Bool :=
  match p with
  | .obj fs =>
    match dGet? fs "cross_platform" with
    | some (.obj ps) =>
      match dGet? ps pl with
      | some (.obj ms) =>
        match dGet? ms mgr with
        | some (.arr ns) => ns.any (strEqB pn)
        | _ => false
      | _ => false
    | _ => false
  | _ => false

/-- The `name` value of a record (null when absent; the theorems only
use it on records whose name is present). -/
def nameOf (p : Json) : Json :=
  match p with
  | .obj fs => (dGet? fs "name").getD .null
  | _ => .null

/-- Lookup through the two inner levels of the reverse mapping. -/
def mdLookup (pd : PyDict (PyDict Json)) (mgr pn : String) : Option Json :=
  match dGet? pd mgr with
  | some md => dGet? md pn
  | none => none

/-- Lookup through the three levels of the reverse mapping. -/
def revLookup (r : RevMap) (pl mgr pn : String) : Option Json :=
  match dGet? r pl with
  | some pd => mdLookup pd mgr pn
  | none => none

/-- Every innermost dict of the reverse mapping has pairwise distinct
keys (so a manager-specific name owns exactly one entry). -/
def revNodupInner (r : RevMap) : Bool :=
  r.all (fun pkv => pkv.2.all (fun mkv => dNodupB mkv.2))

/-- Well-formedness of a record for the cross-platform view: if it has
`cross_platform`, then it has a string `name`, and `cross_platform` is
an object with distinct platform keys whose values are objects with
distinct manager keys whose values are arrays of strings. -/
def wfCross (p : Json) : Bool :=
  match p with
  | .obj fs =>
    match dGet? fs "cross_platform" with
    | none => true
    | some (.obj ps) =>
      (match dGet? fs "name" with
       | some (.str _) => true
       | _ => false) &&
      dNodupB ps &&
      ps.all (fun pkv =>
        match pkv.2 with
        | .obj ms =>
          dNodupB ms &&
          ms.all (fun mkv =>
            match mkv.2 with
            | .arr ns => ns.all (fun n => match n with | .str _ => true | _ => false)
            | _ => false)
        | _ => false)
    | some _ => false
  | _ => false

/-- Does the record carry security data (`'security' in pkg`)? -/
def hasSecB (p : Json) : Bool :=
  match p with
  | .obj fs => dContains fs "security"
  | _ => false

/-- The security score of a record, defaulting to 0 exactly as
`security.get('score', 0)` does. -/
def scoreOf (p : Json) : Rat :=
  match p with
  | .obj fs =>
    match dGet? fs "security" with
    | some (.obj sfs) =>
      match dGet? sfs "score" with
      | some (.num q) => q
      | _ => 0
    | _ => 0
  | _ => 0

/-- The bucket the `if/elif` chain assigns to a score (first match
wins). -/
def bucketOf (q : Rat) : String :=
  if 9 ≤ q then "excellent"
  else if 8 ≤ q then "good"
  else if 6 ≤ q then "fair"
  else "poor"

/-- The vulnerability list of a record ([] when absent or empty). -/
def vulnsOf (p : Json) : List Json :=
  match p with
  | .obj fs =>
    match dGet? fs "security" with
    | some (.obj sfs) =>
      match dGet? sfs "vulnerabilities" with
      | some (.arr ns) => ns
      | _ => []
    | _ => []
  | _ => []

/-- The names of the records with security data whose score falls in the
given bucket, in input order. -/
def secNames (b : String) (packages : List Json) : List Json :=
  (packages.filter (fun p => hasSecB p && (bucketOf (scoreOf p) = b))).map nameOf

/-- Well-formedness of a record for the security view: if it has
`security`, then `security` is an object, the record has a string
`name`, `score` (when present) is a number and `vulnerabilities` (when
present) is an array. -/
def wfSecurity (p : Json) : Bool :=
  match p with
  | .obj fs =>
    match dGet? fs "security" with
    | none => true
    | some (.obj sfs) =>
      (match dGet? fs "name" with
       | some (.str _) => true
       | _ => false) &&
      (match dGet? sfs "score" with
       | none => true
       | some (.num _) => true
       | some _ => false) &&
      (match dGet? sfs "vulnerabilities" with
       | none => true
       | some (.arr _) => true
       | some _ => false)
    | some _ => false
  | _ => false

/-- The category key of a record: its `category` value, "other" when
absent (mirror of `pkg.get('category', 'other')`; only string categories
are well-formed). -/
def catOf (p : Json) : String :=
  match p with
  | .obj fs =>
    match dGet? fs "category" with
    | some (.str s) => s
    | some _ => "other"
    | none => "other"
  | _ => "other"

/-- Pure mirror of one categories-view summary. -/
def catSummary (p : Json) : CatEntry :=
  match p with
  | .obj fs =>
    ⟨(dGet? fs "name").getD .null,
     (dGet? fs "display_name").getD .null,
     (dGet? fs "description").getD .null⟩
  | _ => ⟨.null, .null, .null⟩

/-- Presence of the three fields the categories-view loop dereferences
without a default. -/
def hasNDD (p : Json) : Bool :=
  match p with
  | .obj fs => dContains fs "name" && dContains fs "display_name" && dContains fs "description"
  | _ => false

/-- Structural well-formedness of a record for the categories view: an
object whose `category`, when present, is a string. -/
def wfCatBase (p : Json) : Bool :=
  match p with
  | .obj fs =>
    match dGet? fs "category" with
    | none => true
    | some (.str _) => true
    | some _ => false
  | _ => false

/-- Full well-formedness for the categories view. -/
def wfCategory (p : Json) : Bool :=
  wfCatBase p && hasNDD p

/-- The pure fold mirroring `catLoop` on well-formed records. -/
def catFold (packages : List Json) (cats : PyDict (List CatEntry)) : PyDict (List CatEntry) :=
  match packages with
  | [] => cats
  | p :: rest => catFold rest (dAppendAt cats (catOf p) (catSummary p))

/-- The schema part of a per-file error list: at most one entry, carrying
the one violation `jsonschema.validate` raises. -/
def schemaErrList (d : Json) : List String :=
  match jsonschemaFirstError d with
  | some m => ["Schema validation error: " ++ m]
  | none => []

/-- The filename-consistency part of a per-file error list. -/
def fnameErrList (fileName : String) (fs : PyDict Json) : List String :=
  if dContains fs "name" then
    (let nv := (dGet? fs "name").getD .null
     if fileName = pyStr nv ++ ".json" then []
     else ["Filename " ++ fileName ++ " does not match package name " ++ pyStr nv])
  else []

/-- The manager-count part of a per-file error list. -/
def cpErrList (fs : PyDict Json) : List String :=
  match dGet? fs "cross_platform" with
  | some (.obj ps) =>
    if platformManagerTotal ps < 2 then
      ["Package should support at least 2 package managers"]
    else []
  | some _ => []
  | none => []

/-- The `if/elif` bucket dispatch of `generate_security_data`, factored
out for the proofs (first match wins, `poor` is the fall-through). -/
def bucketAdd (sc : SecCats) (score : Rat) (name : Json) : SecCats :=
  if 9 ≤ score then { sc with excellent := sc.excellent ++ [name] }
  else if 8 ≤ score then { sc with good := sc.good ++ [name] }
  else if 6 ≤ score then { sc with fair := sc.fair ++ [name] }
  else { sc with poor := sc.poor ++ [name] }

/-! ### Concrete package data used by witnesses and counterexamples -/

/-- A fully valid package document (no schema violations, matching
filename, two manager entries). -/
def vOkDoc : Json :=
  .obj [("name", .str "alpha"), ("display_name", .str "Alpha"),
    ("category", .str "tools"), ("description", .str "demo"),
    ("cross_platform", .obj [("linux", .obj [("apt", .arr [.str "alpha"])]),
      ("macos", .obj [("brew", .arr [.str "alpha"])])])]

/-- A two-file batch: one valid file, one JSON parse failure. -/
def c1files : List (String × FileInput) :=
  [("alpha.json", .parsed vOkDoc), ("broken.json", .parseError "Expecting value")]

/-- The per-file error lists of `c1files`. -/
def c1errss : List (List String) :=
  [[], ["Invalid JSON: Expecting value"]]

/-- The platform bindings of the single-manager document of the C4
witness. -/
def c4ps : List (String × Json) :=
  [("linux", .obj [("apt", .arr [.str "pkg"])])]

/-- A document declaring `cross_platform` with exactly one manager
entry. -/
def c4fields : PyDict Json :=
  [("name", .str "pkg"), ("display_name", .str "P"), ("category", .str "tools"),
    ("description", .str "d"), ("cross_platform", .obj c4ps)]

/-- A document violating the schema in two places (missing
`display_name` and missing `category`), otherwise valid. -/
def c2doc : Json :=
  .obj [("name", .str "pkg"), ("description", .str "d"),
    ("cross_platform", .obj [("linux",
      .obj [("apt", .arr [.str "pkg"]), ("snap", .arr [.str "pkg"])])])]

/-- A document whose `cross_platform` holds a non-object platform value:
`len(3)` raises an uncaught `TypeError` inside `validate_package`. -/
def c3badDoc : Json :=
  .obj [("name", .str "beta"), ("cross_platform", .obj [("linux", .num 3)])]

/-- A batch whose first file crashes validation; a second, perfectly
valid file follows it. -/
def c3files : List (String × FileInput) :=
  [("beta.json", .parsed c3badDoc), ("alpha.json", .parsed vOkDoc)]

/-- Records for the C7 witness: scores 9.5, 8.5, 7.0 and 3.0, with one
two-element vulnerability list and one empty one. -/
def c7pkgs : List Json :=
  [.obj [("name", .str "s1"), ("security", .obj [("score", .num 9.5)])],
   .obj [("name", .str "s2"), ("security", .obj [("score", .num 8.5),
     ("vulnerabilities", .arr [.str "v1", .str "v2"])])],
   .obj [("name", .str "s3"), ("security", .obj [("score", .num 7)])],
   .obj [("name", .str "s4"), ("security", .obj [("score", .num 3),
     ("vulnerabilities", .arr [])])]]

/-- Records for the C10 witness: two categories, one record without a
`category` field. -/
def c10pkgs : List Json :=
  [.obj [("name", .str "a"), ("display_name", .str "A"),
     ("description", .str "da"), ("category", .str "tools")],
   .obj [("name", .str "b"), ("display_name", .str "B"), ("description", .str "db")],
   .obj [("name", .str "c"), ("display_name", .str "C"),
     ("description", .str "dc"), ("category", .str "tools")]]

/-- Records for the C6 witness: two packages claiming the same
manager-specific name "shared" under linux/apt. -/
def c6pkgs : List Json :=
  [.obj [("name", .str "one"),
     ("cross_platform", .obj [("linux", .obj [("apt", .arr [.str "shared"])])])],
   .obj [("name", .str "two"),
     ("cross_platform", .obj [("linux", .obj [("apt", .arr [.str "shared"])])])]]

/-- Records for the C5 witness: input ranks [3, 1, 2] (the spec's
popular-packages example). -/
def c5pkgs : List Json :=
  [.obj [("name", .str "p3"), ("display_name", .str "P3"), ("category", .str "x"),
     ("popularity", .obj [("rank", .num 3)])],
   .obj [("name", .str "p1"), ("display_name", .str "P1"), ("category", .str "x"),
     ("popularity", .obj [("rank", .num 1)])],
   .obj [("name", .str "p2"), ("display_name", .str "P2"), ("category", .str "y"),
     ("popularity", .obj [("rank", .num 2)])]]

/-- C9 witness record list: a kept popular record with no `name`,
`display_name` or `category`. -/
def c9apkgs : List Json :=
  [.obj [("popularity", .obj [("rank", .num 1)])]]

/-- C9 witness record list: a record missing `display_name` and
`description`. -/
def c9bpkgs : List Json :=
  [.obj [("name", .str "n")]]

/-! ### Helper lemmas: dicts, strings, primitives -/

theorem dContains_eq_isSome {α : Type} (d : PyDict α) (k : String) :
    dContains d k = (dGet? d k).isSome := by
  induction d with
  | nil => rfl
  | cons kv rest ih =>
    by_cases h : kv.1 = k
    · cases kv
      simp_all [dContains, dGet?]
    · cases kv
      simp_all [dContains, dGet?]

theorem string_data_append (a b : String) : (a ++ b).data = a.data ++ b.data := by
  cases a
  cases b
  rfl

theorem chPrefix_append (l t : List Char) : chPrefix l (l ++ t) = true := by
  induction l with
  | nil => rfl
  | cons c cs ih => simp [chPrefix, ih]

theorem pyLen_lenable (v : Json) (h : lenable v = true) : pyLen v = .ok (jLen v) := by
  cases v <;> simp_all [lenable, pyLen, jLen]

theorem sumManagerLens_ok (ps : List (String × Json))
    (h : ∀ kv ∈ ps, lenable kv.2 = true) :
    sumManagerLens ps = .ok (platformManagerTotal ps) := by
  induction ps with
  | nil => rfl
  | cons kv rest ih =>
    cases kv with
    | mk k m =>
      have h1 : lenable m = true := h (k, m) (by simp)
      have h2 : ∀ kv ∈ rest, lenable kv.2 = true := fun kv hkv => h kv (by simp [hkv])
      simp [sumManagerLens, pyLen_lenable m h1, ih h2, platformManagerTotal]

theorem validate_package_obj (fileName : String) (fs : PyDict Json)
    (h : docOK (Json.obj fs) = true) :
    validate_package fileName (.parsed (.obj fs)) =
      .ok (schemaErrList (.obj fs) ++ fnameErrList fileName fs ++ cpErrList fs) := by
  have hn := dContains_eq_isSome fs "name"
  have hcc := dContains_eq_isSome fs "cross_platform"
  simp only [docOK] at h
  rcases hg : dGet? fs "name" with _ | nv <;>
    rcases hc : dGet? fs "cross_platform" with _ | cv <;>
      rw [hg] at hn <;> rw [hc] at hcc <;> rw [hc] at h <;>
        simp only [Option.isSome_none, Option.isSome_some] at hn hcc
  · simp [validate_package, pyIn, schemaErrList, fnameErrList, cpErrList, hn, hcc, hg, hc]
  · rcases cv with _ | b | q | s | xs | ps
    all_goals try exact Bool.noConfusion h
    have hall : ∀ kv ∈ ps, lenable kv.2 = true := List.all_eq_true.mp h
    by_cases ht : platformManagerTotal ps < 2 <;>
      simp [validate_package, pyIn, pySubscr, pyItems, schemaErrList, fnameErrList,
        cpErrList, hn, hcc, hg, hc, sumManagerLens_ok ps hall, ht]
  · by_cases hf : fileName = pyStr nv ++ ".json" <;>
      simp [validate_package, pyIn, pySubscr, schemaErrList, fnameErrList, cpErrList,
        hn, hcc, hg, hc, hf]
  · rcases cv with _ | b | q | s | xs | ps
    all_goals try exact Bool.noConfusion h
    have hall : ∀ kv ∈ ps, lenable kv.2 = true := List.all_eq_true.mp h
    by_cases hf : fileName = pyStr nv ++ ".json" <;>
      by_cases ht : platformManagerTotal ps < 2 <;>
        simp [validate_package, pyIn, pySubscr, pyItems, schemaErrList, fnameErrList,
          cpErrList, hn, hcc, hg, hc, hf, sumManagerLens_ok ps hall, ht]

theorem schema_err_ne_manager_err (m : String) :
    ("Schema validation error: " ++ m) ≠
      "Package should support at least 2 package managers" := by
  intro heq
  have h1 := congrArg String.data heq
  rw [string_data_append] at h1
  have h2 : "Schema validation error: ".data = 'S' :: "chema validation error: ".data := rfl
  have h3 : "Package should support at least 2 package managers".data =
      'P' :: "ackage should support at least 2 package managers".data := rfl
  rw [h2, h3, List.cons_append] at h1
  injection h1 with h4 h5
  exact absurd h4 (by decide)

theorem fname_err_ne_manager_err (a b : String) :
    ("Filename " ++ a ++ " does not match package name " ++ b) ≠
      "Package should support at least 2 package managers" := by
  intro heq
  have h1 := congrArg String.data heq
  rw [string_data_append, string_data_append, string_data_append] at h1
  have h2 : "Filename ".data = 'F' :: "ilename ".data := rfl
  have h3 : "Package should support at least 2 package managers".data =
      'P' :: "ackage should support at least 2 package managers".data := rfl
  rw [h2, h3, List.cons_append, List.cons_append, List.cons_append] at h1
  injection h1 with h4 h5
  exact absurd h4 (by decide)

theorem count_schemaErrList_mgr (d : Json) :
    (schemaErrList d).count "Package should support at least 2 package managers" = 0 := by
  unfold schemaErrList
  cases h : jsonschemaFirstError d with
  | none => rfl
  | some m =>
    simp [List.count_cons, schema_err_ne_manager_err m]

theorem count_fnameErrList_mgr (fileName : String) (fs : PyDict Json) :
    (fnameErrList fileName fs).count
      "Package should support at least 2 package managers" = 0 := by
  unfold fnameErrList
  by_cases hn : dContains fs "name" <;> simp [hn]
  by_cases hf : fileName = pyStr ((dGet? fs "name").getD .null) ++ ".json" <;>
    simp [hf, List.count_cons, fname_err_ne_manager_err]

/-- C4: for every package file whose document contains `cross_platform`
(an object of per-platform manager objects), the validator sums the
manager entries across all platform keys and reports the error
"Package should support at least 2 package managers" exactly once when
that total is below 2, and never reports it otherwise. -/
theorem manager_count_rule (fileName : String) (fs : PyDict Json)
    (ps : List (String × Json))
    (hcp : dGet? fs "cross_platform" = some (.obj ps))
    (hps : ∀ kv ∈ ps, ∃ ms, kv.2 = Json.obj ms) :
    ∃ errs, validate_package fileName (.parsed (.obj fs)) = .ok errs ∧
      errs.count "Package should support at least 2 package managers" =
        (if platformManagerTotal ps < 2 then 1 else 0) := by
  have hok : docOK (Json.obj fs) = true := by
    simp only [docOK, hcp]
    rw [List.all_eq_true]
    intro kv hkv
    obtain ⟨ms, hms⟩ := hps kv hkv
    simp [hms, lenable]
  refine ⟨_, validate_package_obj fileName fs hok, ?_⟩
  rw [List.count_append, List.count_append, count_schemaErrList_mgr,
    count_fnameErrList_mgr]
  simp only [cpErrList, hcp, Nat.zero_add]
  by_cases ht : platformManagerTotal ps < 2 <;> simp [ht, List.count_cons]

/-- Witness for C4: a document with exactly one manager entry gets the
manager-count error exactly once. -/
theorem manager_count_rule_witness :
    (dGet? c4fields "cross_platform" = some (.obj c4ps) ∧
      (∀ kv ∈ c4ps, ∃ ms, kv.2 = Json.obj ms)) ∧
    ∃ errs, validate_package "pkg.json" (.parsed (.obj c4fields)) = .ok errs ∧
      errs.count "Package should support at least 2 package managers" =
        (if platformManagerTotal c4ps < 2 then 1 else 0) := by
  have h1 : dGet? c4fields "cross_platform" = some (.obj c4ps) := rfl
  have h2 : ∀ kv ∈ c4ps, ∃ ms, kv.2 = Json.obj ms := by
    intro kv hkv
    rw [c4ps, List.mem_singleton] at hkv
    subst hkv
    exact ⟨_, rfl⟩
  exact ⟨⟨h1, h2⟩, manager_count_rule "pkg.json" c4fields c4ps h1 h2⟩

theorem validateLoop_spec (files : List (String × FileInput)) (errss : List (List String))
    (h : List.Forall₂ (fun f es => validate_package f.1 f.2 = .ok es) files errss)
    (tf te : Nat) :
    validateLoop files tf te = .ok (tf + files.length, te + (errss.map List.length).sum) := by
  induction h generalizing tf te with
  | nil => simp [validateLoop]
  | @cons f es files' errss' h1 h2 ih =>
    obtain ⟨fn, c⟩ := f
    simp only [validateLoop, h1]
    rw [ih]
    congr 1
    simp only [List.length_cons, List.map_cons, List.sum_cons, Prod.mk.injEq]
    constructor <;> omega

/-- C1: the validator run exits with code 0 iff zero validation errors
were found across all discovered files, and exits 1 otherwise; the total
error count is the sum of the per-file error-list lengths.  (The
hypothesis says each file's validation completed; a file on which
validation raises is the subject of C3.) -/
theorem validator_exit_iff_zero_errors (files : List (String × FileInput))
    (errss : List (List String))
    (h : List.Forall₂ (fun f es => validate_package f.1 f.2 = .ok es) files errss) :
    validatorMain files = .ok (if (errss.map List.length).sum = 0 then 0 else 1) := by
  unfold validatorMain validate_all_packages
  rw [validateLoop_spec files errss h 0 0]
  by_cases hz : (errss.map List.length).sum = 0 <;> simp [hz]

/-- Witness for C1: a batch with one valid file and one parse failure
exits 1; the formula of the theorem evaluates accordingly. -/
theorem validator_exit_witness :
    List.Forall₂ (fun f es => validate_package f.1 f.2 = .ok es) c1files c1errss ∧
    validatorMain c1files = .ok (if (c1errss.map List.length).sum = 0 then 0 else 1) := by
  have h : List.Forall₂ (fun f es => validate_package f.1 f.2 = .ok es) c1files c1errss := by
    refine List.Forall₂.cons ?_ (List.Forall₂.cons ?_ List.Forall₂.nil) <;> rfl
  exact ⟨h, validator_exit_iff_zero_errors c1files c1errss h⟩

theorem isSchemaErr_schema (m : String) :
    isSchemaErr ("Schema validation error: " ++ m) = true := by
  unfold isSchemaErr
  rw [string_data_append]
  exact chPrefix_append _ _

theorem isSchemaErr_fname (a b : String) :
    isSchemaErr ("Filename " ++ a ++ " does not match package name " ++ b) = false := by
  unfold isSchemaErr
  rw [string_data_append, string_data_append, string_data_append]
  have h2 : "Filename ".data = 'F' :: "ilename ".data := rfl
  rw [h2, List.cons_append, List.cons_append]
  rfl

theorem isSchemaErr_mgr :
    isSchemaErr "Package should support at least 2 package managers" = false := rfl

/-- Counterexample to C2: `c2doc` has two schema violations, yet the
validator reports a single schema error string for it —
`jsonschema.validate` raises only the first violation it selects. -/
theorem schema_single_error_counterexample :
    (schemaViolations c2doc).length = 2 ∧
    validate_package "pkg.json" (.parsed c2doc) =
      .ok ["Schema validation error: display_name is a required property"] := by
  constructor <;> rfl

/-- C2 (amended): for every package file that parses but violates the
schema, the validator reports exactly ONE schema-error string (carrying
the one violation the jsonschema library raises), regardless of how many
violations the document has. -/
theorem schema_reports_single_violation (fileName : String) (d : Json)
    (hok : docOK d = true) (hv : schemaViolations d ≠ []) :
    ∃ errs, validate_package fileName (.parsed d) = .ok errs ∧
      errs.countP isSchemaErr = 1 := by
  rcases d with _ | b | q | s | xs | fs
  all_goals try exact Bool.noConfusion hok
  refine ⟨_, validate_package_obj fileName fs hok, ?_⟩
  rw [List.countP_append, List.countP_append]
  have hs : (schemaErrList (Json.obj fs)).countP isSchemaErr = 1 := by
    unfold schemaErrList jsonschemaFirstError
    cases hh : (schemaViolations (Json.obj fs)).head? with
    | none => exact absurd (List.head?_eq_none_iff.mp hh) hv
    | some m => simp [List.countP_cons, isSchemaErr_schema]
  have hf : (fnameErrList fileName fs).countP isSchemaErr = 0 := by
    unfold fnameErrList
    by_cases hn : dContains fs "name" <;> simp [hn]
    by_cases hfn : fileName = pyStr ((dGet? fs "name").getD .null) ++ ".json" <;>
      simp [hfn, List.countP_cons, isSchemaErr_fname]
  have hc : (cpErrList fs).countP isSchemaErr = 0 := by
    unfold cpErrList
    rcases hg : dGet? fs "cross_platform" with _ | cv
    · rfl
    · rcases cv with _ | b | q | s | xs | ps <;> try rfl
      by_cases ht : platformManagerTotal ps < 2 <;>
        simp [ht, List.countP_cons, isSchemaErr_mgr]
  rw [hs, hf, hc]

/-- Witness for the amended C2 at the two-violation document. -/
theorem schema_reports_single_violation_witness :
    (docOK c2doc = true ∧ schemaViolations c2doc ≠ []) ∧
    ∃ errs, validate_package "pkg.json" (.parsed c2doc) = .ok errs ∧
      errs.countP isSchemaErr = 1 :=
  ⟨⟨by decide, by decide⟩,
    schema_reports_single_violation "pkg.json" c2doc (by decide) (by decide)⟩

theorem validate_package_ok (fn : String) (c : FileInput) (h : fileOK c = true) :
    ∃ es, validate_package fn c = .ok es := by
  cases c with
  | readError m => exact ⟨_, rfl⟩
  | parseError m => exact ⟨_, rfl⟩
  | parsed d =>
    rcases d with _ | b | q | s | xs | fs
    all_goals try exact Bool.noConfusion h
    exact ⟨_, validate_package_obj fn fs h⟩

theorem exists_errss (files : List (String × FileInput))
    (h : ∀ f ∈ files, fileOK f.2 = true) :
    ∃ errss, List.Forall₂ (fun f es => validate_package f.1 f.2 = .ok es) files errss := by
  induction files with
  | nil => exact ⟨[], List.Forall₂.nil⟩
  | cons f rest ih =>
    obtain ⟨errss, hfa⟩ := ih (fun g hg => h g (List.mem_cons_of_mem f hg))
    obtain ⟨es, hes⟩ := validate_package_ok f.1 f.2 (h f (List.mem_cons_self f rest))
    exact ⟨es :: errss, List.Forall₂.cons hes hfa⟩

/-- Counterexample to C3: a file whose `cross_platform` maps a platform
to a number makes `len(managers)` raise an uncaught `TypeError`, so the
whole run aborts instead of producing an error list for that file (the
valid second file of the batch is never reported at all). -/
theorem validator_abort_counterexample :
    validate_all_packages c3files = .error (.typeError "object has no len") := by
  rfl

/-- C3 (amended): per-file validation is independent for every batch of
files that either fail to read/parse or parse to an object document
whose `cross_platform` value, when present, is an object with sized
platform values: each such file independently yields its own error list
(a function of that file alone), the run never aborts, and it exits by
the zero-error rule.  A file outside this shape (see the
counterexample) raises an uncaught exception that aborts the run. -/
theorem validator_independent_on_wf_files (files : List (String × FileInput))
    (h : ∀ f ∈ files, fileOK f.2 = true) :
    ∃ errss, List.Forall₂ (fun f es => validate_package f.1 f.2 = .ok es) files errss ∧
      validate_all_packages files = .ok (decide ((errss.map List.length).sum = 0)) := by
  obtain ⟨errss, hfa⟩ := exists_errss files h
  refine ⟨errss, hfa, ?_⟩
  unfold validate_all_packages
  rw [validateLoop_spec files errss hfa 0 0]
  simp

/-- Witness for the amended C3 at a concrete two-file batch. -/
theorem validator_independent_witness :
    (∀ f ∈ c1files, fileOK f.2 = true) ∧
    ∃ errss, List.Forall₂ (fun f es => validate_package f.1 f.2 = .ok es) c1files errss ∧
      validate_all_packages c1files = .ok (decide ((errss.map List.length).sum = 0)) :=
  ⟨by decide, validator_independent_on_wf_files c1files (by decide)⟩

/-- C8: for a fixed record list, two aggregator runs produce the five
documents identical field-for-field except for the `last_updated`
timestamp (the generation is deterministic in everything but the
captured current time). -/
theorem aggregator_deterministic_modulo_timestamp (packages : List Json) (t1 t2 : String) :
    (generateEndpoints t1 packages).map stripEndpointsTime =
      (generateEndpoints t2 packages).map stripEndpointsTime := by
  unfold generateEndpoints generate_popular_packages generate_cross_platform_mappings
    generate_security_data generate_categories generate_all_packages
  cases popularCore packages <;> cases crossCore packages <;>
    cases securityCore packages <;> cases catLoop packages [] <;> rfl

/-! ### Lemmas for the categories view -/

theorem dGetD_dAppendAt_self {α : Type} (d : PyDict (List α)) (k : String) (x : α) :
    dGetD (dAppendAt d k x) k [] = dGetD d k [] ++ [x] := by
  induction d with
  | nil => simp [dAppendAt, dGetD, dGet?]
  | cons kv rest ih =>
    obtain ⟨k', v⟩ := kv
    by_cases h : k' = k <;> simp_all [dAppendAt, dGetD, dGet?]

theorem dGetD_dAppendAt_ne {α : Type} (d : PyDict (List α)) (k c : String) (x : α)
    (h : c ≠ k) : dGetD (dAppendAt d k x) c [] = dGetD d c [] := by
  have hkc : ¬(k = c) := fun hh => h hh.symm
  induction d with
  | nil => simp [dAppendAt, dGetD, dGet?, hkc]
  | cons kv rest ih =>
    obtain ⟨k', v⟩ := kv
    by_cases h1 : k' = k
    · subst h1
      simp [dAppendAt, dGetD, dGet?, hkc]
    · by_cases h2 : k' = c
      · subst h2
        simp [dAppendAt, h1, dGetD, dGet?]
      · simp only [dAppendAt, if_neg h1]
        simp only [dGetD, dGet?, if_neg h2] at ih ⊢
        exact ih

theorem dContains_dAppendAt {α : Type} (d : PyDict (List α)) (k c : String) (x : α) :
    dContains (dAppendAt d k x) c = (dContains d c || decide (c = k)) := by
  induction d with
  | nil => simp [dAppendAt, dContains, eq_comm]
  | cons kv rest ih =>
    obtain ⟨k', v⟩ := kv
    by_cases h1 : k' = k
    · subst h1
      simp only [dAppendAt, if_pos rfl, dContains]
      by_cases h2 : k' = c
      · simp [h2]
      · have h3 : ¬(c = k') := fun hh => h2 hh.symm
        simp [h2, h3]
    · simp only [dAppendAt, if_neg h1, dContains, ih, Bool.or_assoc]

theorem dSumLens_dAppendAt {α : Type} (d : PyDict (List α)) (k : String) (x : α) :
    dSumLens (dAppendAt d k x) = dSumLens d + 1 := by
  induction d with
  | nil => simp [dAppendAt, dSumLens]
  | cons kv rest ih =>
    obtain ⟨k', v⟩ := kv
    by_cases h : k' = k
    · subst h
      simp [dAppendAt, dSumLens]
      omega
    · simp only [dAppendAt, if_neg h, dSumLens, List.map_cons, List.sum_cons] at ih ⊢
      omega

theorem dNodupB_dAppendAt {α : Type} (d : PyDict (List α)) (k : String) (x : α)
    (h : dNodupB d = true) : dNodupB (dAppendAt d k x) = true := by
  induction d with
  | nil => simp [dAppendAt, dNodupB, dContains]
  | cons kv rest ih =>
    obtain ⟨k', v⟩ := kv
    simp only [dNodupB, Bool.and_eq_true, Bool.not_eq_true'] at h
    obtain ⟨hnc, hnd⟩ := h
    by_cases hk : k' = k
    · subst hk
      simp [dAppendAt, dNodupB, hnc, hnd]
    · simp [dAppendAt, hk, dNodupB, dContains_dAppendAt, hnc, hnd, ih hnd]

theorem catLoop_eq_catFold (l : List Json) (cats : PyDict (List CatEntry))
    (h : ∀ p ∈ l, wfCategory p = true) :
    catLoop l cats = .ok (catFold l cats) := by
  induction l generalizing cats with
  | nil => rfl
  | cons p rest ih =>
    have hp := h p (List.mem_cons_self p rest)
    have hrest : ∀ q ∈ rest, wfCategory q = true :=
      fun q hq => h q (List.mem_cons_of_mem p hq)
    rcases p with _ | b | q | s | xs | fs
    all_goals try exact Bool.noConfusion hp
    simp only [wfCategory, wfCatBase, hasNDD, Bool.and_eq_true] at hp
    obtain ⟨hbase, ⟨hn, hd⟩, hds⟩ := hp
    rw [dContains_eq_isSome, Option.isSome_iff_exists] at hn hd hds
    obtain ⟨nv, hgn⟩ := hn
    obtain ⟨dnv, hgd⟩ := hd
    obtain ⟨dsv, hgs⟩ := hds
    rcases hgc : dGet? fs "category" with _ | cv <;> rw [hgc] at hbase
    · simp only [catLoop, pyGet, asKey, pySubscr, hgn, hgd, hgs, hgc, dGetD,
        catFold, catOf, catSummary, Option.getD]
      exact ih _ hrest
    · rcases cv with _ | b | q | s | xs | cfs
      all_goals try exact Bool.noConfusion hbase
      simp only [catLoop, pyGet, asKey, pySubscr, hgn, hgd, hgs, hgc, dGetD,
        catFold, catOf, catSummary, Option.getD]
      exact ih _ hrest

theorem catFold_dGetD (l : List Json) (cats : PyDict (List CatEntry)) (c : String) :
    dGetD (catFold l cats) c [] =
      dGetD cats c [] ++ (l.filter (fun p => catOf p = c)).map catSummary := by
  induction l generalizing cats with
  | nil => simp [catFold]
  | cons p rest ih =>
    by_cases hc : catOf p = c
    · simp [catFold, ih, hc, dGetD_dAppendAt_self, List.filter_cons]
    · simp [catFold, ih, hc, dGetD_dAppendAt_ne _ _ _ _ (fun hh => hc hh.symm),
        List.filter_cons]

theorem catFold_dContains (l : List Json) (cats : PyDict (List CatEntry)) (c : String) :
    dContains (catFold l cats) c = (dContains cats c || l.any (fun p => catOf p = c)) := by
  induction l generalizing cats with
  | nil => simp [catFold]
  | cons p rest ih =>
    rw [catFold, ih, dContains_dAppendAt]
    by_cases hc : catOf p = c
    · simp [hc, List.any_cons]
    · have hc2 : ¬(c = catOf p) := fun hh => hc hh.symm
      simp [hc, hc2, List.any_cons, Bool.or_assoc]

theorem catFold_dSumLens (l : List Json) (cats : PyDict (List CatEntry)) :
    dSumLens (catFold l cats) = dSumLens cats + l.length := by
  induction l generalizing cats with
  | nil => simp [catFold]
  | cons p rest ih => simp [catFold, ih, dSumLens_dAppendAt]; omega

theorem catFold_dNodupB (l : List Json) (cats : PyDict (List CatEntry))
    (h : dNodupB cats = true) : dNodupB (catFold l cats) = true := by
  induction l generalizing cats with
  | nil => exact h
  | cons p rest ih => exact ih _ (dNodupB_dAppendAt _ _ _ h)

/-- C10: in the categories view every record lands in exactly one group
(keyed by its `category` value or "other" when absent): looking any key
up yields precisely the summaries of the records with that category, in
input order; the group-list lengths sum to `total_packages`, which is
the record count; and `total_categories` is the number of entries of the
group dict, whose keys are pairwise distinct and are exactly the used
category values. -/
theorem categories_partition (now : String) (packages : List Json)
    (h : ∀ p ∈ packages, wfCategory p = true) :
    ∃ doc, generate_categories now packages = .ok doc ∧
      (∀ c, dGetD doc.categories c [] =
        (packages.filter (fun p => catOf p = c)).map catSummary) ∧
      (∀ c, dContains doc.categories c = packages.any (fun p => catOf p = c)) ∧
      dSumLens doc.categories = doc.total_packages ∧
      doc.total_packages = packages.length ∧
      doc.total_categories = doc.categories.length ∧
      dNodupB doc.categories = true := by
  unfold generate_categories
  rw [catLoop_eq_catFold packages [] h]
  refine ⟨_, rfl, ?_, ?_, ?_, rfl, rfl, ?_⟩
  · intro c
    simpa [dGetD, dGet?] using catFold_dGetD packages [] c
  · intro c
    simpa [dContains] using catFold_dContains packages [] c
  · simpa [dSumLens] using catFold_dSumLens packages []
  · exact catFold_dNodupB packages [] rfl

/-- Witness for C10 at three records in two groups. -/
theorem categories_partition_witness :
    (∀ p ∈ c10pkgs, wfCategory p = true) ∧
    ∃ doc, generate_categories "t" c10pkgs = .ok doc ∧
      (∀ c, dGetD doc.categories c [] =
        (c10pkgs.filter (fun p => catOf p = c)).map catSummary) ∧
      (∀ c, dContains doc.categories c = c10pkgs.any (fun p => catOf p = c)) ∧
      dSumLens doc.categories = doc.total_packages ∧
      doc.total_packages = c10pkgs.length ∧
      doc.total_categories = doc.categories.length ∧
      dNodupB doc.categories = true :=
  ⟨by decide, categories_partition "t" c10pkgs (by decide)⟩

/-! ### Lemmas for the security view -/

theorem bucketAdd_excellent (sc : SecCats) (q : Rat) (n : Json) :
    (bucketAdd sc q n).excellent =
      sc.excellent ++ (if bucketOf q = "excellent" then [n] else []) := by
  unfold bucketAdd bucketOf
  by_cases h9 : (9 : Rat) ≤ q
  · simp [h9]
  · by_cases h8 : (8 : Rat) ≤ q
    · simp [h9, h8]
    · by_cases h6 : (6 : Rat) ≤ q <;> simp [h9, h8, h6]

theorem bucketAdd_good (sc : SecCats) (q : Rat) (n : Json) :
    (bucketAdd sc q n).good = sc.good ++ (if bucketOf q = "good" then [n] else []) := by
  unfold bucketAdd bucketOf
  by_cases h9 : (9 : Rat) ≤ q
  · simp [h9]
  · by_cases h8 : (8 : Rat) ≤ q
    · simp [h9, h8]
    · by_cases h6 : (6 : Rat) ≤ q <;> simp [h9, h8, h6]

theorem bucketAdd_fair (sc : SecCats) (q : Rat) (n : Json) :
    (bucketAdd sc q n).fair = sc.fair ++ (if bucketOf q = "fair" then [n] else []) := by
  unfold bucketAdd bucketOf
  by_cases h9 : (9 : Rat) ≤ q
  · simp [h9]
  · by_cases h8 : (8 : Rat) ≤ q
    · simp [h9, h8]
    · by_cases h6 : (6 : Rat) ≤ q <;> simp [h9, h8, h6]

theorem bucketAdd_poor (sc : SecCats) (q : Rat) (n : Json) :
    (bucketAdd sc q n).poor = sc.poor ++ (if bucketOf q = "poor" then [n] else []) := by
  unfold bucketAdd bucketOf
  by_cases h9 : (9 : Rat) ≤ q
  · simp [h9]
  · by_cases h8 : (8 : Rat) ≤ q
    · simp [h9, h8]
    · by_cases h6 : (6 : Rat) ≤ q <;> simp [h9, h8, h6]

theorem secNames_cons (b : String) (p : Json) (rest : List Json) :
    secNames b (p :: rest) =
      (if hasSecB p ∧ bucketOf (scoreOf p) = b then [nameOf p] else []) ++
        secNames b rest := by
  simp only [secNames, List.filter_cons]
  by_cases hq : hasSecB p ∧ bucketOf (scoreOf p) = b
  · simp [hq]
  · simp [hq]

theorem secLoop_cons_obj (fs sfs : PyDict Json) (nm : String)
    (rest : List Json) (ss : PyDict Json) (sc : SecCats) (va : List Json)
    (hsec : dGet? fs "security" = some (.obj sfs))
    (hgn : dGet? fs "name" = some (.str nm))
    (hsc : dGet? sfs "score" = none ∨ ∃ q, dGet? sfs "score" = some (.num q))
    (hvl : dGet? sfs "vulnerabilities" = none ∨
      ∃ ns, dGet? sfs "vulnerabilities" = some (.arr ns)) :
    secLoop (Json.obj fs :: rest) ss sc va =
      secLoop rest (dInsert ss nm (.obj sfs))
        (bucketAdd sc (scoreOf (Json.obj fs)) (.str nm))
        (va ++ vulnsOf (Json.obj fs)) := by
  have hcont : dContains fs "security" = true := by
    rw [dContains_eq_isSome, hsec]
    rfl
  have hscoreJ : pyNumVal ((dGet? sfs "score").getD (.num 0)) =
      .ok (scoreOf (Json.obj fs)) := by
    rcases hsc with h | ⟨q, h⟩ <;> simp [h, pyNumVal, scoreOf, hsec]
  rcases hvl with h | ⟨ns, h⟩
  · simp [secLoop, pyIn, hcont, pySubscr, hsec, hgn, asKey, pyGet, hscoreJ, dGetD, h,
      pyTruthy, vulnsOf, bucketAdd]
  · cases ns with
    | nil =>
      simp [secLoop, pyIn, hcont, pySubscr, hsec, hgn, asKey, pyGet, hscoreJ, dGetD, h,
        pyTruthy, vulnsOf, bucketAdd, asIterList]
    | cons v vs =>
      simp [secLoop, pyIn, hcont, pySubscr, hsec, hgn, asKey, pyGet, hscoreJ, dGetD, h,
        pyTruthy, vulnsOf, bucketAdd, asIterList]

theorem secLoop_spec (l : List Json) (ss : PyDict Json) (sc : SecCats) (va : List Json)
    (h : ∀ p ∈ l, wfSecurity p = true) :
    ∃ ss2, secLoop l ss sc va = .ok (ss2,
      ⟨sc.excellent ++ secNames "excellent" l, sc.good ++ secNames "good" l,
       sc.fair ++ secNames "fair" l, sc.poor ++ secNames "poor" l⟩,
      va ++ ((l.filter hasSecB).map vulnsOf).flatten) := by
  induction l generalizing ss sc va with
  | nil => exact ⟨ss, by simp [secLoop, secNames]⟩
  | cons p rest ih =>
    have hp := h p (List.mem_cons_self p rest)
    have hrest : ∀ q ∈ rest, wfSecurity q = true :=
      fun q hq => h q (List.mem_cons_of_mem p hq)
    rcases p with _ | b | q | s | xs | fs
    all_goals try exact Bool.noConfusion hp
    rcases hsec : dGet? fs "security" with _ | sv
    · have hcont : dContains fs "security" = false := by
        rw [dContains_eq_isSome, hsec]
        rfl
      have hns : hasSecB (Json.obj fs) = false := by simp [hasSecB, hcont]
      obtain ⟨ss2, hss⟩ := ih ss sc va hrest
      refine ⟨ss2, ?_⟩
      simp only [secLoop, pyIn, hcont]
      rw [hss]
      simp [secNames_cons, hns, List.filter_cons]
    · simp only [wfSecurity, hsec] at hp
      rcases sv with _ | b | q | s | xs | sfs
      all_goals try exact Bool.noConfusion hp
      simp only [Bool.and_eq_true] at hp
      obtain ⟨⟨hnm, hsc⟩, hvl⟩ := hp
      rcases hgn : dGet? fs "name" with _ | nv <;> rw [hgn] at hnm
      · exact Bool.noConfusion hnm
      rcases nv with _ | b | q | nm | xs | nfs
      all_goals try exact Bool.noConfusion hnm
      have hsc2 : dGet? sfs "score" = none ∨ ∃ q, dGet? sfs "score" = some (.num q) := by
        rcases hq : dGet? sfs "score" with _ | qv
        · exact Or.inl rfl
        · rw [hq] at hsc
          rcases qv with _ | b | q | s | xs | ofs
          all_goals try exact Bool.noConfusion hsc
          exact Or.inr ⟨q, rfl⟩
      have hvl2 : dGet? sfs "vulnerabilities" = none ∨
          ∃ ns, dGet? sfs "vulnerabilities" = some (.arr ns) := by
        rcases hq : dGet? sfs "vulnerabilities" with _ | qv
        · exact Or.inl rfl
        · rw [hq] at hvl
          rcases qv with _ | b | q | s | xs | ofs
          all_goals try exact Bool.noConfusion hvl
          exact Or.inr ⟨xs, rfl⟩
      rw [secLoop_cons_obj fs sfs nm rest ss sc va hsec hgn hsc2 hvl2]
      obtain ⟨ss2, hss⟩ := ih (dInsert ss nm (.obj sfs))
        (bucketAdd sc (scoreOf (Json.obj fs)) (.str nm))
        (va ++ vulnsOf (Json.obj fs)) hrest
      refine ⟨ss2, ?_⟩
      rw [hss]
      have hsecb : hasSecB (Json.obj fs) = true := by
        simp [hasSecB, dContains_eq_isSome, hsec]
      have hname : nameOf (Json.obj fs) = .str nm := by simp [nameOf, hgn]
      simp only [secNames_cons, hsecb, hname, true_and, List.filter_cons,
        List.map_cons, List.flatten_cons, bucketAdd_excellent, bucketAdd_good,
        bucketAdd_fair, bucketAdd_poor, List.append_assoc]
      simp

/-- C7: in the security view every record carrying security data lands
in exactly the bucket its score selects (default 0, first match wins:
at least 9 gives excellent, then 8 good, then 6 fair, else poor), and
`vulnerability_alerts` is the in-order concatenation of the
vulnerability lists, so its length is the sum of their lengths. -/
theorem security_buckets_and_alerts (now : String) (packages : List Json)
    (h : ∀ p ∈ packages, wfSecurity p = true) :
    ∃ doc, generate_security_data now packages = .ok doc ∧
      doc.security_categories.excellent = secNames "excellent" packages ∧
      doc.security_categories.good = secNames "good" packages ∧
      doc.security_categories.fair = secNames "fair" packages ∧
      doc.security_categories.poor = secNames "poor" packages ∧
      doc.vulnerability_alerts = ((packages.filter hasSecB).map vulnsOf).flatten ∧
      doc.vulnerability_alerts.length =
        ((packages.filter hasSecB).map (fun p => (vulnsOf p).length)).sum := by
  obtain ⟨ss2, hss⟩ := secLoop_spec packages [] ⟨[], [], [], []⟩ [] h
  unfold generate_security_data securityCore
  rw [hss]
  refine ⟨_, rfl, by simp, by simp, by simp, by simp, by simp, ?_⟩
  simp only [List.nil_append, List.length_flatten, List.map_map]
  rfl

/-- Witness for C7 at the spec's example scores [9.5, 8.5, 7.0, 3.0]. -/
theorem security_buckets_and_alerts_witness :
    (∀ p ∈ c7pkgs, wfSecurity p = true) ∧
    ∃ doc, generate_security_data "t" c7pkgs = .ok doc ∧
      doc.security_categories.excellent = secNames "excellent" c7pkgs ∧
      doc.security_categories.good = secNames "good" c7pkgs ∧
      doc.security_categories.fair = secNames "fair" c7pkgs ∧
      doc.security_categories.poor = secNames "poor" c7pkgs ∧
      doc.vulnerability_alerts = ((c7pkgs.filter hasSecB).map vulnsOf).flatten ∧
      doc.vulnerability_alerts.length =
        ((c7pkgs.filter hasSecB).map (fun p => (vulnsOf p).length)).sum :=
  ⟨by decide, security_buckets_and_alerts "t" c7pkgs (by decide)⟩

/-! ### Lemmas for the popular-packages view -/

theorem popKeep_eq (p : Json) (h : wfPopBase p = true) : popKeep p = .ok (keepsPop p) := by
  rcases p with _ | b | q | s | xs | fs
  all_goals try exact Bool.noConfusion h
  simp only [wfPopBase, Bool.and_eq_true] at h
  obtain ⟨hpop, hcat⟩ := h
  rcases hg : dGet? fs "popularity" with _ | pv <;> rw [hg] at hpop
  · have hc : dContains fs "popularity" = false := by
      rw [dContains_eq_isSome, hg]
      rfl
    simp [popKeep, pyIn, hc, keepsPop, hg]
  · rcases pv with _ | b | q | s | xs | pfs
    all_goals try exact Bool.noConfusion hpop
    have hc : dContains fs "popularity" = true := by
      rw [dContains_eq_isSome, hg]
      rfl
    simp [popKeep, pyIn, hc, pySubscr, hg, keepsPop]

theorem popFilter_eq (l : List Json) (h : ∀ p ∈ l, wfPopBase p = true) :
    popFilter l = .ok (l.filter keepsPop) := by
  induction l with
  | nil => rfl
  | cons p rest ih =>
    have hp := popKeep_eq p (h p (List.mem_cons_self p rest))
    have ihr := ih (fun q hq => h q (List.mem_cons_of_mem p hq))
    cases hk : keepsPop p <;> rw [hk] at hp <;>
      simp [popFilter, hp, ihr, List.filter_cons, hk]

theorem rankKeyM_eq (p : Json) (hb : wfPopBase p = true) (hk : keepsPop p = true) :
    rankKeyM p = .ok (rankVal p) := by
  rcases p with _ | b | q | s | xs | fs
  all_goals try exact Bool.noConfusion hb
  simp only [wfPopBase, Bool.and_eq_true] at hb
  obtain ⟨hpop, hcat⟩ := hb
  rcases hg : dGet? fs "popularity" with _ | pv <;> rw [hg] at hpop <;>
    simp only [keepsPop, hg] at hk
  · exact Bool.noConfusion hk
  · rcases pv with _ | b | q | s | xs | pfs
    all_goals try exact Bool.noConfusion hpop
    have hk2 : dContains pfs "rank" = true := hk
    rw [dContains_eq_isSome, Option.isSome_iff_exists] at hk2
    obtain ⟨rv, hr⟩ := hk2
    have hpop2 : (match dGet? pfs "rank" with
      | none => true
      | some (Json.num _) => true
      | some _ => false) = true := hpop
    rw [hr] at hpop2
    rcases rv with _ | b | q | s | xs | rfs
    all_goals try exact Bool.noConfusion hpop2
    simp [rankKeyM, pySubscr, hg, hr, pyNumVal, rankVal]

theorem rankPairs_eq (l : List Json)
    (h : ∀ p ∈ l, wfPopBase p = true ∧ keepsPop p = true) :
    rankPairs l = .ok (l.map (fun p => (rankVal p, p))) := by
  induction l with
  | nil => rfl
  | cons p rest ih =>
    obtain ⟨hb, hk⟩ := h p (List.mem_cons_self p rest)
    have ihr := ih (fun q hq => h q (List.mem_cons_of_mem p hq))
    simp [rankPairs, rankKeyM_eq p hb hk, ihr]

theorem ordInsert_perm (a : Rat × Json) (l : List (Rat × Json)) :
    (ordInsert a l).Perm (a :: l) := by
  induction l with
  | nil => exact List.Perm.refl _
  | cons b rest ih =>
    by_cases hab : a.1 ≤ b.1
    · simp only [ordInsert, if_pos hab]
      exact List.Perm.refl _
    · simp only [ordInsert, if_neg hab]
      exact (ih.cons b).trans (List.Perm.swap a b rest)

theorem sortByRank_perm (l : List (Rat × Json)) : (sortByRank l).Perm l := by
  induction l with
  | nil => exact List.Perm.refl _
  | cons a rest ih =>
    exact (ordInsert_perm a (sortByRank rest)).trans (ih.cons a)

theorem ordInsert_sorted (a : Rat × Json) (l : List (Rat × Json))
    (h : List.Sorted (fun x y : Rat × Json => x.1 ≤ y.1) l) :
    List.Sorted (fun x y : Rat × Json => x.1 ≤ y.1) (ordInsert a l) := by
  induction l with
  | nil => simp [ordInsert]
  | cons b rest ih =>
    rw [List.sorted_cons] at h
    obtain ⟨hb, hrest⟩ := h
    by_cases hab : a.1 ≤ b.1
    · simp only [ordInsert, if_pos hab]
      rw [List.sorted_cons]
      refine ⟨?_, ?_⟩
      · intro x hx
        rcases List.mem_cons.mp hx with hx | hx
        · rw [hx]
          exact hab
        · exact le_trans hab (hb x hx)
      · rw [List.sorted_cons]
        exact ⟨hb, hrest⟩
    · simp only [ordInsert, if_neg hab]
      rw [List.sorted_cons]
      refine ⟨?_, ih hrest⟩
      intro x hx
      have hx2 : x ∈ a :: rest := (ordInsert_perm a rest).mem_iff.mp hx
      rcases List.mem_cons.mp hx2 with hx2 | hx2
      · rw [hx2]
        exact le_of_not_le hab
      · exact hb x hx2

theorem sortByRank_sorted (l : List (Rat × Json)) :
    List.Sorted (fun x y : Rat × Json => x.1 ≤ y.1) (sortByRank l) := by
  induction l with
  | nil => simp [sortByRank]
  | cons a rest ih => exact ordInsert_sorted a (sortByRank rest) ih

theorem ordInsert_filter (a : Rat × Json) (l : List (Rat × Json)) (c : Rat) :
    (ordInsert a l).filter (fun x => decide (x.1 = c)) =
      (if a.1 = c then [a] else []) ++ l.filter (fun x => decide (x.1 = c)) := by
  induction l with
  | nil =>
    by_cases hac : a.1 = c <;> simp [ordInsert, List.filter_cons, hac]
  | cons b rest ih =>
    by_cases hab : a.1 ≤ b.1
    · simp only [ordInsert, if_pos hab]
      by_cases hac : a.1 = c <;> by_cases hbc : b.1 = c <;>
        simp [List.filter_cons, hac, hbc]
    · have hba : b.1 < a.1 := lt_of_not_le hab
      simp only [ordInsert, if_neg hab]
      by_cases hac : a.1 = c
      · have hbc : ¬(b.1 = c) := by
          rw [← hac]
          exact ne_of_lt hba
        simp [List.filter_cons, hbc, ih, hac]
      · by_cases hbc : b.1 = c <;>
          simp [List.filter_cons, hbc, ih, hac]

theorem sortByRank_filter (l : List (Rat × Json)) (c : Rat) :
    (sortByRank l).filter (fun x => decide (x.1 = c)) =
      l.filter (fun x => decide (x.1 = c)) := by
  induction l with
  | nil => rfl
  | cons a rest ih =>
    by_cases hac : a.1 = c <;>
      simp [sortByRank, ordInsert_filter, List.filter_cons, hac, ih]

theorem sortByRank_length (l : List (Rat × Json)) : (sortByRank l).length = l.length :=
  (sortByRank_perm l).length_eq

theorem popularLoop_spec (l : List Json) (acc : List PkgInfo) (cats : PyDict (List Json))
    (h : ∀ p ∈ l, wfPopBase p = true ∧ keepsPop p = true ∧ hasNDC p = true) :
    ∃ cats2, popularLoop l acc cats = .ok (acc ++ l.map mkInfo, cats2) := by
  induction l generalizing acc cats with
  | nil => exact ⟨cats, by simp [popularLoop]⟩
  | cons p rest ih =>
    obtain ⟨hb, hk, hn⟩ := h p (List.mem_cons_self p rest)
    have hrest : ∀ q ∈ rest, wfPopBase q = true ∧ keepsPop q = true ∧ hasNDC q = true :=
      fun q hq => h q (List.mem_cons_of_mem p hq)
    rcases p with _ | b | q | s | xs | fs
    all_goals try exact Bool.noConfusion hb
    simp only [wfPopBase, Bool.and_eq_true] at hb
    obtain ⟨hpop, hcat⟩ := hb
    simp only [hasNDC, Bool.and_eq_true] at hn
    obtain ⟨⟨hn1, hn2⟩, hn3⟩ := hn
    rw [dContains_eq_isSome, Option.isSome_iff_exists] at hn1 hn2 hn3
    obtain ⟨nv, hgn⟩ := hn1
    obtain ⟨dnv, hgd⟩ := hn2
    obtain ⟨cv, hgc⟩ := hn3
    rcases hg : dGet? fs "popularity" with _ | pv <;> rw [hg] at hpop <;>
      simp only [keepsPop, hg] at hk
    · exact Bool.noConfusion hk
    rcases pv with _ | b | q | s | xs | pfs
    all_goals try exact Bool.noConfusion hpop
    have hk2 : dContains pfs "rank" = true := hk
    rw [dContains_eq_isSome, Option.isSome_iff_exists] at hk2
    obtain ⟨rv, hr⟩ := hk2
    have hpop2 : (match dGet? pfs "rank" with
      | none => true
      | some (Json.num _) => true
      | some _ => false) = true := hpop
    rw [hr] at hpop2
    rcases rv with _ | b | q | s | xs | rfs
    all_goals try exact Bool.noConfusion hpop2
    rw [hgc] at hcat
    rcases cv with _ | b | q2 | cs | xs | cfs
    all_goals try exact Bool.noConfusion hcat
    have hstep : popularLoop (Json.obj fs :: rest) acc cats =
        popularLoop rest (acc ++ [mkInfo (Json.obj fs)])
          (dAppendAt cats cs ((dGet? fs "name").getD .null)) := by
      simp [popularLoop, pySubscr, pyGet, asKey, hg, hr, hgn, hgd, hgc, dGetD,
        mkInfo]
    rw [hstep]
    obtain ⟨cats2, hc2⟩ := ih (acc ++ [mkInfo (Json.obj fs)])
      (dAppendAt cats cs ((dGet? fs "name").getD .null)) hrest
    refine ⟨cats2, ?_⟩
    rw [hc2]
    simp

theorem popularCore_spec (packages : List Json)
    (h : ∀ p ∈ packages, wfPopular p = true) :
    ∃ cats2, popularCore packages =
      .ok ((sortKeyed packages).map (fun x => mkInfo x.2), cats2) := by
  have hbase : ∀ p ∈ packages, wfPopBase p = true := by
    intro p hp
    have := h p hp
    rw [wfPopular, Bool.and_eq_true] at this
    exact this.1
  have hkept : ∀ p ∈ packages.filter keepsPop, wfPopBase p = true ∧ keepsPop p = true := by
    intro p hp
    rw [List.mem_filter] at hp
    exact ⟨hbase p hp.1, hp.2⟩
  have hloop : ∀ x ∈ sortByRank (keyedPop packages),
      wfPopBase x.2 = true ∧ keepsPop x.2 = true ∧ hasNDC x.2 = true := by
    intro x hx
    have hx2 : x ∈ keyedPop packages := (sortByRank_perm _).mem_iff.mp hx
    rw [keyedPop, List.mem_map] at hx2
    obtain ⟨p, hp, hxp⟩ := hx2
    rw [List.mem_filter] at hp
    have hw := h p hp.1
    rw [wfPopular, Bool.and_eq_true] at hw
    have hndc : hasNDC p = true := by
      rcases Bool.or_eq_true_iff.mp hw.2 with hh | hh
      · rw [Bool.not_eq_true'] at hh
        rw [hh] at hp
        exact absurd hp.2 (by simp)
      · exact hh
    rw [← hxp]
    exact ⟨hw.1, hp.2, hndc⟩
  unfold popularCore
  simp only [popFilter_eq packages hbase, rankPairs_eq (packages.filter keepsPop) hkept]
  obtain ⟨cats2, hc⟩ := popularLoop_spec ((sortByRank (keyedPop packages)).map Prod.snd) [] []
    (by
      intro p hp
      rw [List.mem_map] at hp
      obtain ⟨x, hx, hxp⟩ := hp
      rw [← hxp]
      exact hloop x hx)
  refine ⟨cats2, ?_⟩
  rw [keyedPop] at hc
  rw [hc]
  simp only [List.nil_append, sortKeyed, keyedPop, List.map_map]
  rfl

/-- C5: the popular view keeps exactly the records having both
`popularity` and `popularity.rank`, orders their keyed list ascending by
rank with a stable sort (equal ranks keep input order), emits one
summary per kept record in that order, and sets `total_packages` to the
number of kept records. -/
theorem popular_view_filter_sort_count (now : String) (packages : List Json)
    (h : ∀ p ∈ packages, wfPopular p = true) :
    ∃ doc, generate_popular_packages now packages = .ok doc ∧
      doc.popular_packages = (sortKeyed packages).map (fun x => mkInfo x.2) ∧
      doc.total_packages = (packages.filter keepsPop).length ∧
      ((sortKeyed packages).map Prod.snd).Perm (packages.filter keepsPop) ∧
      List.Sorted (fun x y : Rat × Json => x.1 ≤ y.1) (sortKeyed packages) ∧
      (∀ c : Rat, (sortKeyed packages).filter (fun x => decide (x.1 = c)) =
        (keyedPop packages).filter (fun x => decide (x.1 = c))) ∧
      (∀ x ∈ keyedPop packages, x.1 = rankVal x.2) := by
  obtain ⟨cats2, hc⟩ := popularCore_spec packages h
  unfold generate_popular_packages
  rw [hc]
  refine ⟨_, rfl, rfl, ?_, ?_, sortByRank_sorted _, fun c => sortByRank_filter _ c, ?_⟩
  · rw [List.length_map, sortKeyed, sortByRank_length, keyedPop, List.length_map]
  · have hperm := (sortByRank_perm (keyedPop packages)).map Prod.snd
    rw [sortKeyed]
    refine hperm.trans ?_
    rw [keyedPop, List.map_map]
    have hid : (Prod.snd ∘ fun p => (rankVal p, p)) = id := rfl
    rw [hid, List.map_id]
  · intro x hx
    rw [keyedPop, List.mem_map] at hx
    obtain ⟨p, hp, hxp⟩ := hx
    rw [← hxp]

/-! ### Lemmas for the cross-platform view -/

theorem dGet?_dInsert_self {α : Type} (d : PyDict α) (k : String) (v : α) :
    dGet? (dInsert d k v) k = some v := by
  induction d with
  | nil => simp [dInsert, dGet?]
  | cons kw rest ih =>
    obtain ⟨k', w⟩ := kw
    by_cases h : k' = k
    · subst h
      simp [dInsert, dGet?]
    · simp [dInsert, dGet?, h, ih]

theorem dGet?_dInsert_ne {α : Type} (d : PyDict α) (k c : String) (v : α)
    (h : ¬(c = k)) : dGet? (dInsert d k v) c = dGet? d c := by
  have h2 : ¬(k = c) := fun hh => h hh.symm
  induction d with
  | nil => simp [dInsert, dGet?, h2]
  | cons kw rest ih =>
    obtain ⟨k', w⟩ := kw
    by_cases h1 : k' = k
    · subst h1
      simp [dInsert, dGet?, h2]
    · by_cases h3 : k' = c <;> simp [dInsert, dGet?, h1, h3, ih, h]

theorem dContains_dInsert {α : Type} (d : PyDict α) (k c : String) (v : α) :
    dContains (dInsert d k v) c = (dContains d c || decide (c = k)) := by
  induction d with
  | nil => simp [dInsert, dContains, eq_comm]
  | cons kw rest ih =>
    obtain ⟨k', w⟩ := kw
    by_cases h1 : k' = k
    · subst h1
      simp only [dInsert, if_pos rfl, dContains]
      by_cases h2 : k' = c
      · simp [h2]
      · have h3 : ¬(c = k') := fun hh => h2 hh.symm
        simp [h2, h3]
    · simp only [dInsert, if_neg h1, dContains, ih, Bool.or_assoc]

theorem mem_dInsert {α : Type} (d : PyDict α) (k : String) (v : α) (kv : String × α)
    (h : kv ∈ dInsert d k v) : kv = (k, v) ∨ kv ∈ d := by
  induction d with
  | nil =>
    simp [dInsert] at h
    exact Or.inl h
  | cons kw rest ih =>
    obtain ⟨k', w⟩ := kw
    by_cases h1 : k' = k
    · subst h1
      simp only [dInsert, if_pos rfl] at h
      rcases List.mem_cons.mp h with h | h
      · exact Or.inl h
      · exact Or.inr (List.mem_cons_of_mem _ h)
    · simp only [dInsert, if_neg h1] at h
      rcases List.mem_cons.mp h with h | h
      · exact Or.inr (by rw [h]; exact List.mem_cons_self _ _)
      · rcases ih h with h2 | h2
        · exact Or.inl h2
        · exact Or.inr (List.mem_cons_of_mem _ h2)

theorem dNodupB_dInsert {α : Type} (d : PyDict α) (k : String) (v : α)
    (h : dNodupB d = true) : dNodupB (dInsert d k v) = true := by
  induction d with
  | nil => simp [dInsert, dNodupB, dContains]
  | cons kw rest ih =>
    obtain ⟨k', w⟩ := kw
    simp only [dNodupB, Bool.and_eq_true, Bool.not_eq_true'] at h
    obtain ⟨hnc, hnd⟩ := h
    by_cases h1 : k' = k
    · subst h1
      simp [dInsert, dNodupB, hnc, hnd]
    · simp [dInsert, h1, dNodupB, dContains_dInsert, hnc, hnd, ih hnd]

theorem dGet?_mem {α : Type} (d : PyDict α) (k : String) (v : α)
    (h : dGet? d k = some v) : (k, v) ∈ d := by
  induction d with
  | nil => exact absurd h (by simp [dGet?])
  | cons kw rest ih =>
    obtain ⟨k', w⟩ := kw
    by_cases h1 : k' = k
    · subst h1
      simp [dGet?] at h
      rw [h]
      exact List.mem_cons_self _ _
    · simp only [dGet?, if_neg h1] at h
      exact List.mem_cons_of_mem _ (ih h)

theorem dGet?_eq_none_of_not_contains {α : Type} (d : PyDict α) (k : String)
    (h : dContains d k = false) : dGet? d k = none := by
  cases hdg : dGet? d k with
  | none => rfl
  | some v =>
    rw [dContains_eq_isSome, hdg] at h
    exact Bool.noConfusion h

theorem revAddNames_spec (name : Json) (md : PyDict Json) (ns : List Json)
    (h : ∀ n ∈ ns, ∃ s, n = Json.str s) :
    ∃ md2, revAddNames name md ns = .ok md2 ∧
      (∀ pn, dGet? md2 pn =
        if ns.any (strEqB pn) then some name else dGet? md pn) ∧
      (dNodupB md = true → dNodupB md2 = true) := by
  induction ns generalizing md with
  | nil => exact ⟨md, rfl, by simp, id⟩
  | cons n rest ih =>
    obtain ⟨s, hs⟩ := h n (List.mem_cons_self n rest)
    subst hs
    obtain ⟨md2, hmd2, hlook, hnd⟩ :=
      ih (dInsert md s name) (fun n hn => h n (List.mem_cons_of_mem _ hn))
    refine ⟨md2, ?_, ?_, ?_⟩
    · simp [revAddNames, asKey, hmd2]
    · intro pn
      rw [hlook pn]
      by_cases hrest : rest.any (strEqB pn)
      · simp [List.any_cons, hrest]
      · by_cases hsp : s = pn
        · subst hsp
          simp [List.any_cons, hrest, strEqB, dGet?_dInsert_self]
        · simp [List.any_cons, hrest, strEqB, hsp,
            dGet?_dInsert_ne md s pn name (fun hh => hsp hh.symm)]
    · intro hmd
      exact hnd (dNodupB_dInsert md s name hmd)

theorem revAddMgrs_spec (name : Json) (pd : PyDict (PyDict Json))
    (mitems : List (String × Json))
    (hnodup : dNodupB mitems = true)
    (hvals : ∀ kv ∈ mitems, ∃ ns, kv.2 = Json.arr ns ∧ ∀ n ∈ ns, ∃ s, n = Json.str s)
    (hinner : ∀ kv ∈ pd, dNodupB kv.2 = true) :
    ∃ pd2, revAddMgrs name pd mitems = .ok pd2 ∧
      (∀ mgr pn, mdLookup pd2 mgr pn =
        (match dGet? mitems mgr with
         | some (Json.arr ns) =>
           if ns.any (strEqB pn) then some name else mdLookup pd mgr pn
         | _ => mdLookup pd mgr pn)) ∧
      (∀ kv ∈ pd2, dNodupB kv.2 = true) := by
  induction mitems generalizing pd with
  | nil =>
    refine ⟨pd, rfl, ?_, hinner⟩
    intro mgr pn
    simp [dGet?]
  | cons kv0 rest ih =>
    obtain ⟨mgr0, v⟩ := kv0
    obtain ⟨ns, hv, hns⟩ := hvals (mgr0, v) (List.mem_cons_self _ _)
    simp only at hv
    subst hv
    simp only [dNodupB, Bool.and_eq_true, Bool.not_eq_true'] at hnodup
    obtain ⟨hnc, hnd⟩ := hnodup
    have hvals2 : ∀ kv ∈ rest, ∃ ns, kv.2 = Json.arr ns ∧ ∀ n ∈ ns, ∃ s, n = Json.str s :=
      fun kv hkv => hvals kv (List.mem_cons_of_mem _ hkv)
    have hrest_none : dGet? rest mgr0 = none := dGet?_eq_none_of_not_contains rest mgr0 hnc
    by_cases hc : dContains pd mgr0 = true
    · obtain ⟨md0, hmd0⟩ : ∃ md0, dGet? pd mgr0 = some md0 := by
        rw [dContains_eq_isSome, Option.isSome_iff_exists] at hc
        exact hc
      obtain ⟨md2, h1, h2, h3⟩ := revAddNames_spec name md0 ns hns
      have hmd0nodup : dNodupB md0 = true := hinner (mgr0, md0) (dGet?_mem pd mgr0 md0 hmd0)
      have hinner2 : ∀ kv ∈ dInsert pd mgr0 md2, dNodupB kv.2 = true := by
        intro kv hkv
        rcases mem_dInsert pd mgr0 md2 kv hkv with hkv | hkv
        · rw [hkv]
          exact h3 hmd0nodup
        · exact hinner kv hkv
      obtain ⟨pd2, hrec, hlook, hinner3⟩ := ih (dInsert pd mgr0 md2) hnd hvals2 hinner2
      refine ⟨pd2, ?_, ?_, hinner3⟩
      · simp [revAddMgrs, hc, asIterList, dGetD, hmd0, h1, hrec]
      · intro mgr pn
        rw [hlook mgr pn]
        by_cases hm : mgr0 = mgr
        · subst hm
          rw [hrest_none]
          simp [dGet?, mdLookup, dGet?_dInsert_self, h2, hmd0]
        · have hcons : dGet? ((mgr0, Json.arr ns) :: rest) mgr = dGet? rest mgr := by
            simp [dGet?, hm]
          rw [hcons]
          have he : mdLookup (dInsert pd mgr0 md2) mgr pn = mdLookup pd mgr pn := by
            simp [mdLookup, dGet?_dInsert_ne pd mgr0 mgr md2 (fun hh => hm hh.symm)]
          rw [he]
    · have hpdnone : dGet? pd mgr0 = none :=
        dGet?_eq_none_of_not_contains pd mgr0 (Bool.not_eq_true _ ▸ hc)
      obtain ⟨md2, h1, h2, h3⟩ := revAddNames_spec name [] ns hns
      have hinner2 : ∀ kv ∈ dInsert (dInsert pd mgr0 []) mgr0 md2, dNodupB kv.2 = true := by
        intro kv hkv
        rcases mem_dInsert _ mgr0 md2 kv hkv with hkv | hkv
        · rw [hkv]
          exact h3 rfl
        · rcases mem_dInsert pd mgr0 [] kv hkv with hkv | hkv
          · rw [hkv]
            rfl
          · exact hinner kv hkv
      obtain ⟨pd2, hrec, hlook, hinner3⟩ :=
        ih (dInsert (dInsert pd mgr0 []) mgr0 md2) hnd hvals2 hinner2
      refine ⟨pd2, ?_, ?_, hinner3⟩
      · have hcneg : dContains pd mgr0 = false := by
          cases hcb : dContains pd mgr0
          · rfl
          · exact absurd hcb hc
        simp [revAddMgrs, hcneg, asIterList, dGetD, dGet?_dInsert_self, h1, hrec]
      · intro mgr pn
        rw [hlook mgr pn]
        by_cases hm : mgr0 = mgr
        · subst hm
          rw [hrest_none]
          simp [dGet?, mdLookup, dGet?_dInsert_self, h2, hpdnone]
        · have hcons : dGet? ((mgr0, Json.arr ns) :: rest) mgr = dGet? rest mgr := by
            simp [dGet?, hm]
          rw [hcons]
          have hne : ¬(mgr = mgr0) := fun hh => hm hh.symm
          have he : mdLookup (dInsert (dInsert pd mgr0 []) mgr0 md2) mgr pn =
              mdLookup pd mgr pn := by
            simp [mdLookup, dGet?_dInsert_ne _ mgr0 mgr _ hne]
          rw [he]

theorem revAddPlats_spec (name : Json) (r : RevMap) (items : List (String × Json))
    (hnodup : dNodupB items = true)
    (hvals : ∀ pkv ∈ items, ∃ ms, pkv.2 = Json.obj ms ∧ dNodupB ms = true ∧
      ∀ mkv ∈ ms, ∃ ns, mkv.2 = Json.arr ns ∧ ∀ n ∈ ns, ∃ s, n = Json.str s)
    (hinner : ∀ pkv ∈ r, ∀ mkv ∈ pkv.2, dNodupB mkv.2 = true) :
    ∃ r2, revAddPlats name r items = .ok r2 ∧
      (∀ pl mgr pn, revLookup r2 pl mgr pn =
        (match dGet? items pl with
         | some (Json.obj ms) =>
           (match dGet? ms mgr with
            | some (Json.arr ns) =>
              if ns.any (strEqB pn) then some name else revLookup r pl mgr pn
            | _ => revLookup r pl mgr pn)
         | _ => revLookup r pl mgr pn)) ∧
      (∀ pkv ∈ r2, ∀ mkv ∈ pkv.2, dNodupB mkv.2 = true) := by
  induction items generalizing r with
  | nil =>
    refine ⟨r, rfl, ?_, hinner⟩
    intro pl mgr pn
    simp [dGet?]
  | cons pkv0 rest ih =>
    obtain ⟨pl0, v⟩ := pkv0
    obtain ⟨ms, hv, hmsnd, hmsv⟩ := hvals (pl0, v) (List.mem_cons_self _ _)
    simp only at hv
    subst hv
    simp only [dNodupB, Bool.and_eq_true, Bool.not_eq_true'] at hnodup
    obtain ⟨hnc, hnd⟩ := hnodup
    have hrest_none : dGet? rest pl0 = none := dGet?_eq_none_of_not_contains rest pl0 hnc
    have hvals2 : ∀ pkv ∈ rest, ∃ ms, pkv.2 = Json.obj ms ∧ dNodupB ms = true ∧
        ∀ mkv ∈ ms, ∃ ns, mkv.2 = Json.arr ns ∧ ∀ n ∈ ns, ∃ s, n = Json.str s :=
      fun kv hkv => hvals kv (List.mem_cons_of_mem _ hkv)
    by_cases hc : dContains r pl0 = true
    · obtain ⟨pd0, hpd0⟩ : ∃ pd0, dGet? r pl0 = some pd0 := by
        rw [dContains_eq_isSome, Option.isSome_iff_exists] at hc
        exact hc
      have hpd0inner : ∀ mkv ∈ pd0, dNodupB mkv.2 = true :=
        hinner (pl0, pd0) (dGet?_mem r pl0 pd0 hpd0)
      obtain ⟨pd2, h1, h2, h3⟩ := revAddMgrs_spec name pd0 ms hmsnd hmsv hpd0inner
      have hinner2 : ∀ pkv ∈ dInsert r pl0 pd2, ∀ mkv ∈ pkv.2, dNodupB mkv.2 = true := by
        intro pkv hpkv
        rcases mem_dInsert r pl0 pd2 pkv hpkv with hpkv | hpkv
        · rw [hpkv]
          exact h3
        · exact hinner pkv hpkv
      obtain ⟨r2, hrec, hlook, hinner3⟩ := ih (dInsert r pl0 pd2) hnd hvals2 hinner2
      refine ⟨r2, ?_, ?_, hinner3⟩
      · simp [revAddPlats, hc, pyItems, dGetD, hpd0, h1, hrec]
      · intro pl mgr pn
        rw [hlook pl mgr pn]
        by_cases hp : pl0 = pl
        · subst hp
          have hL : revLookup (dInsert r pl0 pd2) pl0 mgr pn = mdLookup pd2 mgr pn := by
            simp [revLookup, dGet?_dInsert_self]
          have hR : dGet? ((pl0, Json.obj ms) :: rest) pl0 = some (Json.obj ms) := by
            simp [dGet?]
          have hRr : revLookup r pl0 mgr pn = mdLookup pd0 mgr pn := by
            simp [revLookup, hpd0]
          simp only [hrest_none, hR, hL, h2 mgr pn, hRr]
        · have hcons : dGet? ((pl0, Json.obj ms) :: rest) pl = dGet? rest pl := by
            simp [dGet?, hp]
          rw [hcons]
          have he : revLookup (dInsert r pl0 pd2) pl mgr pn = revLookup r pl mgr pn := by
            simp [revLookup, dGet?_dInsert_ne r pl0 pl pd2 (fun hh => hp hh.symm)]
          rw [he]
    · have hcneg : dContains r pl0 = false := by
        cases hcb : dContains r pl0
        · rfl
        · exact absurd hcb hc
      have hrnone : dGet? r pl0 = none := dGet?_eq_none_of_not_contains r pl0 hcneg
      obtain ⟨pd2, h1, h2, h3⟩ := revAddMgrs_spec name [] ms hmsnd hmsv
        (by intro kv hkv; simp at hkv)
      have hinner2 : ∀ pkv ∈ dInsert (dInsert r pl0 []) pl0 pd2,
          ∀ mkv ∈ pkv.2, dNodupB mkv.2 = true := by
        intro pkv hpkv
        rcases mem_dInsert _ pl0 pd2 pkv hpkv with hpkv | hpkv
        · rw [hpkv]
          exact h3
        · rcases mem_dInsert r pl0 [] pkv hpkv with hpkv | hpkv
          · rw [hpkv]
            intro mkv hmkv
            simp at hmkv
          · exact hinner pkv hpkv
      obtain ⟨r2, hrec, hlook, hinner3⟩ :=
        ih (dInsert (dInsert r pl0 []) pl0 pd2) hnd hvals2 hinner2
      refine ⟨r2, ?_, ?_, hinner3⟩
      · simp [revAddPlats, hcneg, pyItems, dGetD, dGet?_dInsert_self, h1, hrec]
      · intro pl mgr pn
        rw [hlook pl mgr pn]
        by_cases hp : pl0 = pl
        · subst hp
          have hL : revLookup (dInsert (dInsert r pl0 []) pl0 pd2) pl0 mgr pn =
              mdLookup pd2 mgr pn := by
            simp [revLookup, dGet?_dInsert_self]
          have hR : dGet? ((pl0, Json.obj ms) :: rest) pl0 = some (Json.obj ms) := by
            simp [dGet?]
          have hRr : revLookup r pl0 mgr pn = none := by
            simp [revLookup, hrnone]
          have hnil : mdLookup ([] : PyDict (PyDict Json)) mgr pn = none := rfl
          simp only [hrest_none, hR, hL, h2 mgr pn, hRr, hnil]
        · have hcons : dGet? ((pl0, Json.obj ms) :: rest) pl = dGet? rest pl := by
            simp [dGet?, hp]
          rw [hcons]
          have hne : ¬(pl = pl0) := fun hh => hp hh.symm
          have he : revLookup (dInsert (dInsert r pl0 []) pl0 pd2) pl mgr pn =
              revLookup r pl mgr pn := by
            simp [revLookup, dGet?_dInsert_ne _ pl0 pl _ hne]
          rw [he]

theorem getLast?_filter_cons (q : Json → Bool) (p : Json) (rest : List Json) :
    ((p :: rest).filter q).getLast? =
      (match (rest.filter q).getLast? with
       | some x => some x
       | none => if q p then some p else none) := by
  rw [List.filter_cons]
  cases hq : q p
  · rw [if_neg (by simp [hq])]
    cases hgl : (rest.filter q).getLast? <;> simp [hgl, hq]
  · rw [if_pos (by simp [hq])]
    cases hfl : rest.filter q with
    | nil => simp [hfl, hq]
    | cons x xs =>
      rw [List.getLast?_cons_cons]
      cases hgl : (x :: xs).getLast? with
      | none => exact absurd (List.getLast?_eq_none_iff.mp hgl) (by simp)
      | some y => simp

theorem crossLoop_spec (packages : List Json) (m : PyDict Json) (r : RevMap)
    (h : ∀ p ∈ packages, wfCross p = true)
    (hinner : ∀ pkv ∈ r, ∀ mkv ∈ pkv.2, dNodupB mkv.2 = true) :
    ∃ m2 r2, crossLoop packages m r = .ok (m2, r2) ∧
      (∀ pl mgr pn, revLookup r2 pl mgr pn =
        (match (packages.filter (claimsName pl mgr pn)).getLast? with
         | some p => some (nameOf p)
         | none => revLookup r pl mgr pn)) ∧
      (∀ pkv ∈ r2, ∀ mkv ∈ pkv.2, dNodupB mkv.2 = true) := by
  induction packages generalizing m r with
  | nil =>
    refine ⟨m, r, rfl, ?_, hinner⟩
    intro pl mgr pn
    simp
  | cons p rest ih =>
    have hp := h p (List.mem_cons_self p rest)
    have hrest : ∀ q ∈ rest, wfCross q = true :=
      fun q hq => h q (List.mem_cons_of_mem p hq)
    rcases p with _ | b | q | s | xs | fs
    all_goals try exact Bool.noConfusion hp
    rcases hcp : dGet? fs "cross_platform" with _ | cv
    · have hcont : dContains fs "cross_platform" = false := by
        rw [dContains_eq_isSome, hcp]
        rfl
      obtain ⟨m2, r2, hrec, hlook, hin⟩ := ih m r hrest hinner
      refine ⟨m2, r2, ?_, ?_, hin⟩
      · simp [crossLoop, pyIn, hcont, hrec]
      · intro pl mgr pn
        rw [hlook pl mgr pn]
        have hclaims : claimsName pl mgr pn (Json.obj fs) = false := by
          simp [claimsName, hcp]
        rw [List.filter_cons, hclaims]
        simp
    · rcases cv with _ | b | q | s | xs | ps
      all_goals try (simp only [wfCross, hcp] at hp; exact Bool.noConfusion hp)
      simp only [wfCross, hcp, Bool.and_eq_true] at hp
      obtain ⟨⟨hname, hpsnd⟩, hpsall⟩ := hp
      rcases hgn : dGet? fs "name" with _ | nv <;> rw [hgn] at hname
      · exact Bool.noConfusion hname
      rcases nv with _ | b | q | nm | xs | nfs
      all_goals try exact Bool.noConfusion hname
      have hcont : dContains fs "cross_platform" = true := by
        rw [dContains_eq_isSome, hcp]
        rfl
      have hvals : ∀ pkv ∈ ps, ∃ ms, pkv.2 = Json.obj ms ∧ dNodupB ms = true ∧
          ∀ mkv ∈ ms, ∃ ns, mkv.2 = Json.arr ns ∧ ∀ n ∈ ns, ∃ s, n = Json.str s := by
        intro pkv hpkv
        have hall := List.all_eq_true.mp hpsall pkv hpkv
        rcases pkv with ⟨pl0, v⟩
        rcases v with _ | b | q | s | xs | ms
        all_goals try exact Bool.noConfusion hall
        simp only [Bool.and_eq_true] at hall
        refine ⟨ms, rfl, hall.1, ?_⟩
        intro mkv hmkv
        have h2 := List.all_eq_true.mp hall.2 mkv hmkv
        rcases mkv with ⟨mgr0, w⟩
        rcases w with _ | b | q | s | ns | ofs
        all_goals try exact Bool.noConfusion h2
        refine ⟨ns, rfl, ?_⟩
        intro n hn
        have h3 := List.all_eq_true.mp h2 n hn
        rcases n with _ | b | q | s | xs | nfs2
        all_goals try exact Bool.noConfusion h3
        exact ⟨s, rfl⟩
      obtain ⟨r1, hadd, haddlook, haddinner⟩ :=
        revAddPlats_spec (.str nm) r ps hpsnd hvals hinner
      obtain ⟨m2, r2, hrec, hlook, hin⟩ := ih (dInsert m nm (.obj ps)) r1 hrest haddinner
      refine ⟨m2, r2, ?_, ?_, hin⟩
      · simp [crossLoop, pyIn, hcont, pySubscr, hgn, hcp, asKey, pyItems, hadd, hrec]
      · intro pl mgr pn
        rw [hlook pl mgr pn]
        rw [getLast?_filter_cons]
        have hnm2 : nameOf (Json.obj fs) = .str nm := by simp [nameOf, hgn]
        cases hgl : (rest.filter (claimsName pl mgr pn)).getLast? with
        | some pq => rfl
        | none =>
          rw [haddlook pl mgr pn]
          rcases hpl : dGet? ps pl with _ | pv
          · have hclaims : claimsName pl mgr pn (Json.obj fs) = false := by
              simp only [claimsName, hcp, hpl]
            simp only [hpl, hclaims]
            simp
          · obtain ⟨ms, hpv, hmsnd2, hmsv2⟩ := hvals (pl, pv) (dGet?_mem ps pl pv hpl)
            simp only at hpv
            subst hpv
            rcases hmg : dGet? ms mgr with _ | mv
            · have hclaims : claimsName pl mgr pn (Json.obj fs) = false := by
                simp only [claimsName, hcp, hpl, hmg]
              simp only [hpl, hmg, hclaims]
              simp
            · obtain ⟨ns, hmv, hnsv⟩ := hmsv2 (mgr, mv) (dGet?_mem ms mgr mv hmg)
              simp only at hmv
              subst hmv
              have hclaims : claimsName pl mgr pn (Json.obj fs) = ns.any (strEqB pn) := by
                simp only [claimsName, hcp, hpl, hmg]
              cases han : ns.any (strEqB pn)
              · rw [han] at hclaims
                simp only [hpl, hmg, han, hclaims]
                simp
              · rw [han] at hclaims
                simp only [hpl, hmg, han, hclaims]
                simp [hnm2]

/-- A lookup into the initial reverse mapping (three empty platform
dicts) finds nothing. -/
theorem revLookup_init (pl mgr pn : String) :
    revLookup [("linux", []), ("macos", []), ("windows", [])] pl mgr pn = none := by
  simp only [revLookup, dGet?]
  by_cases h1 : "linux" = pl <;> by_cases h2 : "macos" = pl <;>
    by_cases h3 : "windows" = pl <;> simp [h1, h2, h3, mdLookup, dGet?]

/-- C6: in the cross-platform view, for every platform, manager and
manager-specific package name, the reverse mapping holds the name of the
LAST processed package that claims that key (last-writer-wins, no error
raised), and every innermost dict has pairwise-distinct keys, so a
claimed key owns exactly one entry. -/
theorem cross_reverse_last_writer (now : String) (packages : List Json)
    (h : ∀ p ∈ packages, wfCross p = true) :
    ∃ doc, generate_cross_platform_mappings now packages = .ok doc ∧
      (∀ pl mgr pn, revLookup doc.reverse_mappings pl mgr pn =
        ((packages.filter (claimsName pl mgr pn)).getLast?).map nameOf) ∧
      revNodupInner doc.reverse_mappings = true := by
  have hinner0 : ∀ pkv ∈ ([("linux", []), ("macos", []), ("windows", [])] : RevMap),
      ∀ mkv ∈ pkv.2, dNodupB mkv.2 = true := by
    intro pkv hpkv mkv hmkv
    fin_cases hpkv <;> simp at hmkv
  obtain ⟨m2, r2, hrec, hlook, hin⟩ := crossLoop_spec packages []
    [("linux", []), ("macos", []), ("windows", [])] h hinner0
  unfold generate_cross_platform_mappings crossCore
  rw [hrec]
  refine ⟨_, rfl, ?_, ?_⟩
  · intro pl mgr pn
    rw [hlook pl mgr pn, revLookup_init]
    cases hgl : (packages.filter (claimsName pl mgr pn)).getLast? <;> simp
  · rw [revNodupInner, List.all_eq_true]
    intro pkv hpkv
    rw [List.all_eq_true]
    intro mkv hmkv
    exact hin pkv hpkv mkv hmkv

/-- Witness for C6: two packages both claiming "shared" under linux/apt;
the reverse mapping resolves to the later one. -/
theorem cross_reverse_last_writer_witness :
    (∀ p ∈ c6pkgs, wfCross p = true) ∧
    (∃ doc, generate_cross_platform_mappings "t" c6pkgs = .ok doc ∧
      (∀ pl mgr pn, revLookup doc.reverse_mappings pl mgr pn =
        ((c6pkgs.filter (claimsName pl mgr pn)).getLast?).map nameOf) ∧
      revNodupInner doc.reverse_mappings = true) ∧
    (generate_cross_platform_mappings "t" c6pkgs).map
      (fun d => revLookup d.reverse_mappings "linux" "apt" "shared") =
      .ok (some (.str "two")) :=
  ⟨by decide, cross_reverse_last_writer "t" c6pkgs (by decide), by rfl⟩

/-! ### Lemmas for C9: missing required fields raise KeyError -/

theorem popularLoop_key_or_ok (l : List Json) (acc : List PkgInfo)
    (cats : PyDict (List Json))
    (h : ∀ p ∈ l, wfPopBase p = true ∧ keepsPop p = true) :
    (∃ k, popularLoop l acc cats = .error (.keyError k)) ∨
    ((∃ res, popularLoop l acc cats = .ok res) ∧ ∀ p ∈ l, hasNDC p = true) := by
  induction l generalizing acc cats with
  | nil => exact Or.inr ⟨⟨(acc, cats), rfl⟩, by simp⟩
  | cons p rest ih =>
    obtain ⟨hb, hk⟩ := h p (List.mem_cons_self p rest)
    have hrest : ∀ q ∈ rest, wfPopBase q = true ∧ keepsPop q = true :=
      fun q hq => h q (List.mem_cons_of_mem p hq)
    rcases p with _ | b | q | s | xs | fs
    all_goals try exact Bool.noConfusion hb
    simp only [wfPopBase, Bool.and_eq_true] at hb
    obtain ⟨hpop, hcat⟩ := hb
    rcases hg : dGet? fs "popularity" with _ | pv <;> simp only [keepsPop, hg] at hk
    · exact Bool.noConfusion hk
    rw [hg] at hpop
    rcases pv with _ | b | q | s | xs | pfs
    all_goals try exact Bool.noConfusion hpop
    have hk2 : dContains pfs "rank" = true := hk
    rw [dContains_eq_isSome, Option.isSome_iff_exists] at hk2
    obtain ⟨rv, hr⟩ := hk2
    rcases hgn : dGet? fs "name" with _ | nv
    · refine Or.inl ⟨"name", ?_⟩
      simp [popularLoop, pySubscr, hg, hr, hgn]
    rcases hgd : dGet? fs "display_name" with _ | dnv
    · refine Or.inl ⟨"display_name", ?_⟩
      simp [popularLoop, pySubscr, hg, hr, hgn, hgd]
    rcases hgc : dGet? fs "category" with _ | cv
    · refine Or.inl ⟨"category", ?_⟩
      simp [popularLoop, pySubscr, hg, hr, hgn, hgd, hgc]
    · rw [hgc] at hcat
      rcases cv with _ | b | q2 | cs | xs | cfs
      all_goals try exact Bool.noConfusion hcat
      have hstep : popularLoop (Json.obj fs :: rest) acc cats =
          popularLoop rest
            (acc ++ [⟨rv, nv, dnv, .str cs,
              dGetD pfs "downloads_per_month" (.num 0),
              dGetD pfs "search_frequency" (.num 0),
              pyTruthy (dGetD fs "cross_platform" .null)⟩])
            (dAppendAt cats cs nv) := by
        simp [popularLoop, pySubscr, pyGet, asKey, hg, hr, hgn, hgd, hgc]
      rw [hstep]
      rcases ih _ _ hrest with ⟨k, hk3⟩ | ⟨⟨res, hres⟩, hall⟩
      · exact Or.inl ⟨k, hk3⟩
      · refine Or.inr ⟨⟨res, hres⟩, ?_⟩
        intro q hq
        rcases List.mem_cons.mp hq with hq | hq
        · rw [hq]
          simp [hasNDC, dContains_eq_isSome, hgn, hgd, hgc]
        · exact hall q hq

theorem catLoop_key_or_ok (l : List Json) (cats : PyDict (List CatEntry))
    (h : ∀ p ∈ l, wfCatBase p = true) :
    (∃ k, catLoop l cats = .error (.keyError k)) ∨
    ((∃ res, catLoop l cats = .ok res) ∧ ∀ p ∈ l, hasNDD p = true) := by
  induction l generalizing cats with
  | nil => exact Or.inr ⟨⟨cats, rfl⟩, by simp⟩
  | cons p rest ih =>
    have hb := h p (List.mem_cons_self p rest)
    have hrest : ∀ q ∈ rest, wfCatBase q = true :=
      fun q hq => h q (List.mem_cons_of_mem p hq)
    rcases p with _ | b | q | s | xs | fs
    all_goals try exact Bool.noConfusion hb
    have hcatv : ∃ cs : String, dGetD fs "category" (.str "other") = .str cs := by
      rcases hgc : dGet? fs "category" with _ | cv
      · exact ⟨"other", by simp [dGetD, hgc]⟩
      · simp only [wfCatBase, hgc] at hb
        rcases cv with _ | b | q | cs | xs | cfs
        all_goals try exact Bool.noConfusion hb
        exact ⟨cs, by simp [dGetD, hgc]⟩
    obtain ⟨cs, hcs⟩ := hcatv
    rcases hgn : dGet? fs "name" with _ | nv
    · refine Or.inl ⟨"name", ?_⟩
      simp [catLoop, pyGet, asKey, pySubscr, hcs, hgn]
    rcases hgd : dGet? fs "display_name" with _ | dnv
    · refine Or.inl ⟨"display_name", ?_⟩
      simp [catLoop, pyGet, asKey, pySubscr, hcs, hgn, hgd]
    rcases hgs : dGet? fs "description" with _ | dsv
    · refine Or.inl ⟨"description", ?_⟩
      simp [catLoop, pyGet, asKey, pySubscr, hcs, hgn, hgd, hgs]
    · have hstep : catLoop (Json.obj fs :: rest) cats =
          catLoop rest (dAppendAt cats cs ⟨nv, dnv, dsv⟩) := by
        simp [catLoop, pyGet, asKey, pySubscr, hcs, hgn, hgd, hgs]
      rw [hstep]
      rcases ih _ hrest with ⟨k, hk3⟩ | ⟨⟨res, hres⟩, hall⟩
      · exact Or.inl ⟨k, hk3⟩
      · refine Or.inr ⟨⟨res, hres⟩, ?_⟩
        intro q hq
        rcases List.mem_cons.mp hq with hq | hq
        · rw [hq]
          simp [hasNDD, dContains_eq_isSome, hgn, hgd, hgs]
        · exact hall q hq

/-- C9: the aggregation views dereference their required fields with no
default: the popular view raises `KeyError` (aborting the endpoint
generation) when any kept record lacks `name`, `display_name` or
`category`; the categories view raises when any record lacks `name`,
`display_name` or `description`; and with those fields present the
categories view succeeds — only `category` itself has a default. -/
theorem views_raise_on_missing_fields (now : String) :
    (∀ packages : List Json, (∀ p ∈ packages, wfPopBase p = true) →
      (∃ p ∈ packages, keepsPop p = true ∧ hasNDC p = false) →
      ∃ k, generate_popular_packages now packages = .error (.keyError k)) ∧
    (∀ packages : List Json, (∀ p ∈ packages, wfCatBase p = true) →
      (∃ p ∈ packages, hasNDD p = false) →
      ∃ k, generate_categories now packages = .error (.keyError k)) ∧
    (∀ packages : List Json, (∀ p ∈ packages, wfCatBase p = true ∧ hasNDD p = true) →
      ∃ doc, generate_categories now packages = .ok doc) := by
  refine ⟨?_, ?_, ?_⟩
  · intro packages hwf hex
    obtain ⟨p0, hp0mem, hp0k, hp0m⟩ := hex
    have hkept : ∀ p ∈ packages.filter keepsPop, wfPopBase p = true ∧ keepsPop p = true := by
      intro p hp
      rw [List.mem_filter] at hp
      exact ⟨hwf p hp.1, hp.2⟩
    unfold generate_popular_packages popularCore
    simp only [popFilter_eq packages hwf, rankPairs_eq (packages.filter keepsPop) hkept]
    have hsortedwf : ∀ p ∈ (sortByRank ((packages.filter keepsPop).map
        (fun p => (rankVal p, p)))).map Prod.snd,
        wfPopBase p = true ∧ keepsPop p = true := by
      intro p hp
      rw [List.mem_map] at hp
      obtain ⟨x, hx, hxp⟩ := hp
      have hx2 := (sortByRank_perm _).mem_iff.mp hx
      rw [List.mem_map] at hx2
      obtain ⟨q, hq, hxq⟩ := hx2
      rw [← hxp, ← hxq]
      exact hkept q hq
    rcases popularLoop_key_or_ok _ [] [] hsortedwf with ⟨k, hk⟩ | ⟨⟨res, hres⟩, hall⟩
    · exact ⟨k, by rw [hk]⟩
    · have hp0sorted : p0 ∈ (sortByRank ((packages.filter keepsPop).map
          (fun p => (rankVal p, p)))).map Prod.snd := by
        have h1 : p0 ∈ packages.filter keepsPop := List.mem_filter.mpr ⟨hp0mem, hp0k⟩
        have h2 : (rankVal p0, p0) ∈ (packages.filter keepsPop).map
            (fun p => (rankVal p, p)) := List.mem_map_of_mem _ h1
        have h3 := (sortByRank_perm _).mem_iff.mpr h2
        have h4 := List.mem_map_of_mem Prod.snd h3
        exact h4
      have := hall p0 hp0sorted
      rw [hp0m] at this
      exact Bool.noConfusion this
  · intro packages hwf hex
    obtain ⟨p0, hp0mem, hp0m⟩ := hex
    unfold generate_categories
    rcases catLoop_key_or_ok packages [] hwf with ⟨k, hk⟩ | ⟨⟨res, hres⟩, hall⟩
    · exact ⟨k, by rw [hk]⟩
    · have := hall p0 hp0mem
      rw [hp0m] at this
      exact Bool.noConfusion this
  · intro packages hwf
    have hwf2 : ∀ p ∈ packages, wfCategory p = true := by
      intro p hp
      rw [wfCategory, Bool.and_eq_true]
      exact hwf p hp
    unfold generate_categories
    rw [catLoop_eq_catFold packages [] hwf2]
    exact ⟨_, rfl⟩

/-- Witness for C9: a kept record with only `popularity` crashes the
popular view with a `KeyError`; a record with only `name` crashes the
categories view; complete records succeed there. -/
theorem views_raise_on_missing_fields_witness :
    ((∀ p ∈ c9apkgs, wfPopBase p = true) ∧
      (∃ p ∈ c9apkgs, keepsPop p = true ∧ hasNDC p = false) ∧
      ∃ k, generate_popular_packages "t" c9apkgs = .error (.keyError k)) ∧
    ((∀ p ∈ c9bpkgs, wfCatBase p = true) ∧
      (∃ p ∈ c9bpkgs, hasNDD p = false) ∧
      ∃ k, generate_categories "t" c9bpkgs = .error (.keyError k)) ∧
    ((∀ p ∈ c10pkgs, wfCatBase p = true ∧ hasNDD p = true) ∧
      ∃ doc, generate_categories "t" c10pkgs = .ok doc) := by
  have hexa : ∃ p ∈ c9apkgs, keepsPop p = true ∧ hasNDC p = false :=
    ⟨.obj [("popularity", .obj [("rank", .num 1)])], List.mem_cons_self _ _,
      by decide, by decide⟩
  have hexb : ∃ p ∈ c9bpkgs, hasNDD p = false :=
    ⟨.obj [("name", .str "n")], List.mem_cons_self _ _, by decide⟩
  refine ⟨⟨by decide, hexa, ?_⟩, ⟨by decide, hexb, ?_⟩, ⟨by decide, ?_⟩⟩
  · exact (views_raise_on_missing_fields "t").1 c9apkgs (by decide) hexa
  · exact (views_raise_on_missing_fields "t").2.1 c9bpkgs (by decide) hexb
  · exact (views_raise_on_missing_fields "t").2.2 c10pkgs (by decide)

/-- Witness for C5 at input ranks [3, 1, 2], which sort to [1, 2, 3]. -/
theorem popular_view_filter_sort_count_witness :
    (∀ p ∈ c5pkgs, wfPopular p = true) ∧
    (∃ doc, generate_popular_packages "t" c5pkgs = .ok doc ∧
      doc.popular_packages = (sortKeyed c5pkgs).map (fun x => mkInfo x.2) ∧
      doc.total_packages = (c5pkgs.filter keepsPop).length ∧
      ((sortKeyed c5pkgs).map Prod.snd).Perm (c5pkgs.filter keepsPop) ∧
      List.Sorted (fun x y : Rat × Json => x.1 ≤ y.1) (sortKeyed c5pkgs) ∧
      (∀ c : Rat, (sortKeyed c5pkgs).filter (fun x => decide (x.1 = c)) =
        (keyedPop c5pkgs).filter (fun x => decide (x.1 = c))) ∧
      (∀ x ∈ keyedPop c5pkgs, x.1 = rankVal x.2)) ∧
    (sortKeyed c5pkgs).map Prod.fst = [1, 2, 3] ∧
    (c5pkgs.filter keepsPop).length = 3 :=
  ⟨by decide, popular_view_filter_sort_count "t" c5pkgs (by decide), by decide, by decide⟩

end Omni
